import Mathlib

/-!
# Verification of the commcare-app-tools form-test orchestration core

Shallow embedding of `src/commcare_app_tools/test/definition.py`,
`src/commcare_app_tools/test/runner.py` and the CLI glue in
`src/commcare_app_tools/cli/test.py`.  Python strings are embedded as
`List Char`; Python `dict[str, ...]` values as insertion-ordered
association lists; Python exceptions as `Except` values.  The domain of
YAML values is restricted to scalars and one level of containers (the
shapes the test-definition schema uses); Unicode-only corners of
`str.strip` / `\s` / `\d` are embedded at their ASCII meaning.
-/

/-- Python strings, embedded as lists of characters. -/
abbrev Str := List Char

/-- Whitespace as recognised by Python's `str.strip()` and the regex
class `\s` (ASCII part). -/
def isPySpace (c : Char) : Bool :=
  c == ' ' || c == '\t' || c == '\n' || c == '\r' || c == '\x0b' || c == '\x0c'

/-- Python `str.lstrip()`. -/
def pyLStrip (s : Str) : Str := s.dropWhile isPySpace

/-- Python `str.rstrip()`. -/
def pyRStrip (s : Str) : Str := (s.reverse.dropWhile isPySpace).reverse

/-- Python `str.strip()`. -/
def pyStrip (s : Str) : Str := pyLStrip (pyRStrip s)

/-- Python `s.split("\n")` (`runner.py:361`). -/
def splitLines : Str → List Str
  | [] => [[]]
  | c :: rest =>
    if c = '\n' then [] :: splitLines rest
    else
      match splitLines rest with
      | l :: ls => (c :: l) :: ls
      | [] => [[c]]

/-- Python `sep.join(parts)`. -/
def pyJoin (sep : Str) : List Str → Str
  | [] => []
  | [l] => l
  | l :: l' :: rest => l ++ sep ++ pyJoin sep (l' :: rest)

/-- Index of the first occurrence of `pat` as a contiguous substring,
`none` when it does not occur. -/
def findSub (pat : Str) : Str → Option Nat
  | [] => if pat.isEmpty then some 0 else none
  | c :: rest =>
    if pat.isPrefixOf (c :: rest) then some 0
    else (findSub pat rest).map (· + 1)

/-- Length of a match of `</[^>]+>` at the head of the input: `</`, a
nonempty greedy run of non-`>` characters, then `>`.  (`[^>]+` cannot
cross a `>`, so the regex fragment is deterministic.) -/
def closeTagLen : Str → Option Nat
  | '<' :: '/' :: rest =>
    if (rest.takeWhile (fun c => c ≠ '>')).length = 0 then none
    else
      match rest.drop (rest.takeWhile (fun c => c ≠ '>')).length with
      | '>' :: _ => some (2 + (rest.takeWhile (fun c => c ≠ '>')).length + 1)
      | _ => none
  | _ => none

/-- First position where `</[^>]+>` matches, with the match length. -/
def findCloseTag : Str → Option (Nat × Nat)
  | [] => none
  | c :: rest =>
    match closeTagLen (c :: rest) with
    | some len => some (0, len)
    | none => (findCloseTag rest).map (fun p => (p.1 + 1, p.2))

/-- Length of a match of `<\?xml\s.*?\?>.*?</[^>]+>` (DOTALL) at the head
of the input.  The lazy `.*?\?>` takes the first `?>`; the lazy
`.*?</[^>]+>` takes the first closing-tag match after it (later `?>`
split points can never succeed where the first fails, so no further
backtracking is observable). -/
def alt1Len (s : Str) : Option Nat :=
  match s with
  | '<' :: '?' :: 'x' :: 'm' :: 'l' :: c :: rest =>
    if isPySpace c then
      match findSub ['?', '>'] rest with
      | some p =>
        match findCloseTag (rest.drop (p + 2)) with
        | some (q, len) => some (6 + (p + 2) + (q + len))
        | none => none
      | none => none
    else none
  | _ => none

/-- Length of a match of `<data\s[^>]*>.*?</data>` (DOTALL) at the head
of the input: `<data`, one whitespace, a greedy `>`-free run, `>`, then
up to and including the first `</data>`. -/
def alt2Len (s : Str) : Option Nat :=
  match s with
  | '<' :: 'd' :: 'a' :: 't' :: 'a' :: c :: rest =>
    if isPySpace c then
      match rest.drop ((rest.takeWhile (fun ch => ch ≠ '>')).length) with
      | '>' :: rest2 =>
        match findSub "</data>".toList rest2 with
        | some p => some (6 + (rest.takeWhile (fun ch => ch ≠ '>')).length + 1 + (p + 7))
        | none => none
      | _ => none
    else none
  | _ => none

/-- Length of a match of the alternation
`(<\?xml\s.*?\?>.*?</[^>]+>|<data\s[^>]*>.*?</data>)` at the head of the
input; the first alternative is tried first (`runner.py:351`). -/
def altLen (s : Str) : Option Nat :=
  match alt1Len s with
  | some len => some len
  | none => alt2Len s

/-- `re.search` of the pattern above: the match at the leftmost matching
position (`runner.py:355`). -/
def searchFrom : Str → Option Str
  | [] => none
  | c :: rest =>
    match altLen (c :: rest) with
    | some len => some ((c :: rest).take len)
    | none => searchFrom rest

/-- One iteration state of the fallback line scan of
`TestRunner._extract_form_xml` (`runner.py:361`-`380`): the remaining
lines, the `in_xml` flag, and the accumulated `xml_lines`. -/
def fallbackLoop : List Str → Bool → List Str → Option Str
  | [], _, _ => none
  | line :: rest, in_xml, xml_lines =>
    let stripped := pyStrip line
    let in_xml' :=
      if "<?xml".toList.isPrefixOf stripped ||
          (['<'].isPrefixOf stripped && !("<!".toList.isPrefixOf stripped) &&
            decide (stripped.length > 10) && !in_xml) then
        true
      else in_xml
    if in_xml' then
      let xml_lines' := xml_lines ++ [line]
      if "</".toList.isPrefixOf stripped && ['>'].isSuffixOf stripped then
        let candidate := pyStrip (pyJoin ['\n'] xml_lines')
        if candidate.count '<' > 3 then some candidate
        else fallbackLoop rest in_xml' xml_lines'
      else fallbackLoop rest in_xml' xml_lines'
    else fallbackLoop rest in_xml' xml_lines

/-- `TestRunner._extract_form_xml` (`runner.py:333`-`380`): regex pass,
then the fallback line scan. -/
def extract_form_xml (stdout : Str) : Option Str :=
  if stdout.isEmpty then none
  else
    match searchFrom stdout with
    | some m => some (pyStrip m)
    | none => fallbackLoop (splitLines stdout) false []

/-! ## YAML value domain (`definition.py`)

`TestDefinition.from_dict` receives `dict[str, Any]` from `yaml.safe_load`.
The embedded domain covers the scalars and single-level containers the
schema uses: `None`, `bool`, `int`, `str` scalars, plus lists and
string-keyed dicts of scalars. -/

/-- A scalar Python value. -/
inductive PyPrim where
  | none
  | bool (b : Bool)
  | int (n : Int)
  | str (s : Str)
deriving DecidableEq

/-- A Python value appearing in a parsed test-definition document. -/
inductive PyVal where
  | prim (p : PyPrim)
  | list (xs : List PyPrim)
  | dict (xs : List (Str × PyPrim))
deriving DecidableEq

/-- Python truthiness of a scalar. -/
def PyPrim.truthy : PyPrim → Bool
  | .none => false
  | .bool b => b
  | .int n => n != 0
  | .str s => !s.isEmpty

/-- Python truthiness. -/
def PyVal.truthy : PyVal → Bool
  | .prim p => p.truthy
  | .list xs => !xs.isEmpty
  | .dict xs => !xs.isEmpty

/-- Python `str()` of a scalar. -/
def PyPrim.pyStr : PyPrim → Str
  | .none => "None".toList
  | .bool true => "True".toList
  | .bool false => "False".toList
  | .int n => (toString n).toList
  | .str s => s

/-- Python type name, used in error messages. -/
def PyVal.typeName : PyVal → Str
  | .prim .none => "NoneType".toList
  | .prim (.bool _) => "bool".toList
  | .prim (.int _) => "int".toList
  | .prim (.str _) => "str".toList
  | .list _ => "list".toList
  | .dict _ => "dict".toList

/-- `data.get(k)`: the value of the first binding of `k`, if any. -/
def pyGet (data : List (Str × PyVal)) (k : Str) : Option PyVal :=
  match data with
  | [] => Option.none
  | (k', v) :: rest => if k' = k then some v else pyGet rest k

/-- `data.get(k, default)`. -/
def pyGetD (data : List (Str × PyVal)) (k : Str) (dflt : PyVal) : PyVal :=
  (pyGet data k).getD dflt

/-- Python `a or b`. -/
def pyOr (a b : PyVal) : PyVal := if a.truthy then a else b

/-- Python iteration `[... for item in v]`: lists yield their elements,
strings yield their characters as one-character strings, dicts yield
their keys; scalars raise `TypeError`. -/
def pyIter : PyVal → Except Str (List PyPrim)
  | .list xs => .ok xs
  | .prim (.str s) => .ok (s.map (fun c => PyPrim.str [c]))
  | .dict xs => .ok (xs.map (fun p => PyPrim.str p.1))
  | v => .error ([Char.ofNat 39] ++ v.typeName ++ [Char.ofNat 39] ++
      " object is not iterable".toList)

/-- Python `v.items()`: only dicts have it; anything else raises
`AttributeError`. -/
def pyItems : PyVal → Except Str (List (Str × PyPrim))
  | .dict xs => .ok xs
  | v => .error ([Char.ofNat 39] ++ v.typeName ++ [Char.ofNat 39] ++
      " object has no attribute ".toList ++ [Char.ofNat 39] ++ "items".toList ++ [Char.ofNat 39])

/-- Digit run of a Python int literal body: digits with single
underscores allowed between digits.  `acc` is the value so far. -/
def parseDigitsGo (acc : Nat) : Str → Option Nat
  | [] => some acc
  | '_' :: rest =>
    match rest with
    | d :: rest' =>
      if d.isDigit then parseDigitsGo (acc * 10 + (d.toNat - 48)) rest' else Option.none
    | [] => Option.none
  | d :: rest =>
    if d.isDigit then parseDigitsGo (acc * 10 + (d.toNat - 48)) rest else Option.none

/-- Nonempty digit run (underscore rules as in Python int literals). -/
def parseDigits : Str → Option Nat
  | [] => Option.none
  | d :: rest =>
    if d.isDigit then parseDigitsGo (d.toNat - 48) rest else Option.none

/-- Python `int(s)` for a string: strip whitespace, optional sign,
nonempty digit run; otherwise `ValueError`. -/
def pyIntOfStr (s : Str) : Except Str Int :=
  let t := pyStrip s
  let val : Option Int :=
    match t with
    | '+' :: r => (parseDigits r).map (fun n => (n : Int))
    | '-' :: r => (parseDigits r).map (fun n => -(n : Int))
    | r => (parseDigits r).map (fun n => (n : Int))
  match val with
  | some n => .ok n
  | Option.none => .error ("invalid literal for int() with base 10: ".toList ++
      [Char.ofNat 39] ++ s ++ [Char.ofNat 39])

/-- Python `int(v)` on a scalar. -/
def PyPrim.pyInt : PyPrim → Except Str Int
  | .int n => .ok n
  | .bool b => .ok (if b then 1 else 0)
  | .str s => pyIntOfStr s
  | .none => .error ("int() argument must be a string or a number, not NoneType".toList)

/-- Python `int(v)`. -/
def PyVal.pyInt : PyVal → Except Str Int
  | .prim p => p.pyInt
  | v => .error ("int() argument must be a string or a number, not ".toList ++ v.typeName)

/-! ## `TestDefinition` (`definition.py:17`-`208`) -/

/-- `ACTION_SKIP` (`definition.py:13`). -/
def ACTION_SKIP : Str := "SKIP".toList

/-- `ACTION_NEW_REPEAT` (`definition.py:14`). -/
def ACTION_NEW_REPEAT : Str := "NEW_REPEAT".toList

/-- The `TestDefinition` dataclass (`definition.py:17`-`37`).  The four
identifier fields keep the raw document values, as `from_dict` does not
coerce them; `navigation` and `answers` are string-coerced there. -/
structure TestDefinition where
  name : PyVal
  domain : PyVal
  app_id : PyVal
  username : PyVal
  navigation : List Str := []
  answers : List (Str × Str) := []
  timeout : Int := 120
deriving DecidableEq

/-- The required keys checked by `from_dict` (`definition.py:80`), in
source order. -/
def requiredFields : List Str :=
  ["name".toList, "domain".toList, "app_id".toList, "username".toList]

/-- Insertion into a Python dict embedded as an association list: an
existing key keeps its position and gets the new value. -/
def dictInsert (k v : Str) : List (Str × Str) → List (Str × Str)
  | [] => [(k, v)]
  | (k', v') :: rest => if k' = k then (k', v) :: rest else (k', v') :: dictInsert k v rest

/-- `TestDefinition.from_dict` (`definition.py:67`-`101`): check the
required fields (reporting all missing ones in one `ValueError`),
string-coerce `navigation` items and `answers` entries, and coerce
`timeout` with `int(...)`, defaulting to 120 when absent. -/
def TestDefinition.from_dict (data : List (Str × PyVal)) : Except Str TestDefinition :=
  let missing := requiredFields.filter
    (fun k => !(pyGetD data k (.prim .none)).truthy)
  if !missing.isEmpty then
    .error ("Missing required fields: ".toList ++ pyJoin ", ".toList missing)
  else
    match pyIter (pyOr (pyGetD data "navigation".toList (.prim .none)) (.list [])) with
    | .error e => .error e
    | .ok navItems =>
      let navigation := navItems.map PyPrim.pyStr
      match pyItems (pyOr (pyGetD data "answers".toList (.prim .none)) (.dict [])) with
      | .error e => .error e
      | .ok rawAnswers =>
        let answers := rawAnswers.foldl
          (fun acc p => dictInsert ((PyPrim.str p.1).pyStr) p.2.pyStr acc) []
        match (pyGetD data "timeout".toList (.prim (.int 120))).pyInt with
        | .error e => .error e
        | .ok t =>
          .ok { name := pyGetD data "name".toList (.prim .none),
                domain := pyGetD data "domain".toList (.prim .none),
                app_id := pyGetD data "app_id".toList (.prim .none),
                username := pyGetD data "username".toList (.prim .none),
                navigation := navigation,
                answers := answers,
                timeout := t }

/-- The regex test `re.search(r"\[\d+\]$", xpath)` of
`TestDefinition._ensure_indexed_xpath` (`definition.py:115`): the string
ends with `]`, preceded by a nonempty digit run, preceded by `[`.
(Matching the maximal digit run before the final `]` is equivalent to
the regex: any shorter run would be preceded by a digit, not `[`.) -/
def endsWithIndex (xpath : Str) : Bool :=
  match xpath.reverse with
  | ']' :: rest =>
    let ds := rest.takeWhile Char.isDigit
    !ds.isEmpty && ((rest.drop ds.length).head? == some '[')
  | _ => false

/-- `TestDefinition._ensure_indexed_xpath` (`definition.py:105`-`117`). -/
def ensure_indexed_xpath (xpath : Str) : Str :=
  if endsWithIndex xpath then xpath else xpath ++ "[1]".toList

/-- One directive of `build_replay_string` (`definition.py:135`-`142`). -/
def replayDirective (xpath value : Str) : Str :=
  if value = ACTION_SKIP then
    "((".toList ++ ensure_indexed_xpath xpath ++ ") (SKIP))".toList
  else if value = ACTION_NEW_REPEAT then
    "((".toList ++ ensure_indexed_xpath xpath ++ ") (NEW_REPEAT))".toList
  else
    "((".toList ++ ensure_indexed_xpath xpath ++ ") (VALUE) (".toList ++ value ++ "))".toList

/-- `TestDefinition.build_replay_string` (`definition.py:119`-`143`). -/
def TestDefinition.build_replay_string (d : TestDefinition) : Str :=
  pyJoin [' '] (d.answers.map (fun p => replayDirective p.1 p.2))

/-- `TestDefinition.build_stdin` (`definition.py:145`-`180`): navigation
lines, then -- when there are answers -- a blank line, the `:replay`
line, `:next`, and ten blank lines; joined with newlines plus a final
newline. -/
def TestDefinition.build_stdin (d : TestDefinition) : Str :=
  let lines : List Str :=
    d.navigation ++
      (if d.answers.isEmpty then []
       else [[]] ++ [":replay ".toList ++ d.build_replay_string] ++
         [":next".toList] ++ List.replicate 10 [])
  pyJoin ['\n'] lines ++ ['\n']

/-! ## `TestResult` and result parsing (`runner.py:23`-`331`) -/

/-- Truthiness of an `Optional[str]`: `None` and `""` are falsy. -/
def optTruthy : Option Str → Bool
  | Option.none => false
  | some s => !s.isEmpty

/-- Byte length of one character under UTF-8 (`len(s.encode("utf-8"))`
counts these per character). -/
def charUtf8Len (c : Char) : Nat :=
  if c.toNat < 0x80 then 1
  else if c.toNat < 0x800 then 2
  else if c.toNat < 0x10000 then 3
  else 4

/-- `len(s.encode("utf-8"))`. -/
def utf8Len (s : Str) : Nat := (s.map charUtf8Len).sum

/-- Round-half-to-even to an integer, on exact rationals.  (`round` on
Python floats is embedded on `Rat`; durations are abstract elapsed
times, so the float/rational gap is immaterial here.) -/
def roundHalfEven (q : Rat) : Int :=
  let n := q.floor
  if q - (n : Rat) < 1 / 2 then n
  else if q - (n : Rat) > 1 / 2 then n + 1
  else if n % 2 = 0 then n else n + 1

/-- Python `round(x, 2)` (`runner.py:53`). -/
def pyRound2 (q : Rat) : Rat := ((roundHalfEven (q * 100) : Int) : Rat) / 100

/-- JSON-able values appearing in `TestResult.to_dict`. -/
inductive JVal where
  | py (v : PyVal)
  | bool (b : Bool)
  | int (n : Int)
  | num (q : Rat)
  | str (s : Str)
deriving DecidableEq

/-- The `TestResult` dataclass (`runner.py:23`-`45`), with its field
defaults.  `test_name` carries the raw `definition.name` value. -/
structure TestResult where
  test_name : PyVal
  passed : Bool
  form_xml : Option Str := Option.none
  stdout : Str := []
  stderr : Str := []
  exit_code : Int := -1
  duration_seconds : Rat := 0
  error : Option Str := Option.none
deriving DecidableEq

/-- `TestResult.to_dict` (`runner.py:47`-`59`): the four base fields,
then `error` when truthy, then `form_xml_size_bytes` when a form XML was
captured. -/
def TestResult.to_dict (r : TestResult) : List (Str × JVal) :=
  [("test_name".toList, JVal.py r.test_name),
   ("passed".toList, JVal.bool r.passed),
   ("exit_code".toList, JVal.int r.exit_code),
   ("duration_seconds".toList, JVal.num (pyRound2 r.duration_seconds))] ++
  (if optTruthy r.error then [("error".toList, JVal.str (r.error.getD []))] else []) ++
  (if optTruthy r.form_xml then
    [("form_xml_size_bytes".toList, JVal.int (utf8Len (r.form_xml.getD [])))]
   else [])

/-- A `subprocess.CompletedProcess` with text capture; the streams are
`None` when not captured. -/
structure CompletedProcess where
  returncode : Int
  stdout : Option Str
  stderr : Option Str

/-- `TestRunner._parse_result` (`runner.py:270`-`331`). -/
def parse_result (d : TestDefinition) (process : CompletedProcess)
    (duration : Rat) : TestResult :=
  let stdout := process.stdout.getD []
  let stderr := process.stderr.getD []
  let form_xml := extract_form_xml stdout
  if process.returncode ≠ 0 then
    { test_name := d.name, passed := false, form_xml := form_xml,
      stdout := stdout, stderr := stderr, exit_code := process.returncode,
      duration_seconds := duration,
      error := some ("Process exited with code ".toList ++
        (toString process.returncode).toList) }
  else if optTruthy form_xml then
    { test_name := d.name, passed := true, form_xml := form_xml,
      stdout := stdout, stderr := stderr, exit_code := process.returncode,
      duration_seconds := duration }
  else
    { test_name := d.name, passed := false,
      stdout := stdout, stderr := stderr, exit_code := process.returncode,
      duration_seconds := duration,
      error := some "Form XML not found in output. The form may not have completed.".toList }

/-! ## Orchestration (`runner.py:62`-`432`)

The setup helpers talk to the remote API and the workspace cache, and
the process driver spawns the external player; one `Env` value records
the outcome the environment would produce for this run. -/

/-- Outcome of one setup helper's interaction with the API/workspace
collaborators: success with a local path, or an exception.  A
`RuntimeError` raised inside the helper's `try` block is distinguished
from other exception types because `ensure_restore_downloaded`
re-raises the former unchanged. -/
inductive FetchOutcome where
  | ok (path : Str)
  | runtimeError (msg : Str)
  | otherExc (msg : Str)

/-- Outcome of the external player process for this run. -/
inductive DriverOutcome where
  | completed (returncode : Int) (stdout stderr : Option Str)
  | timedOut
  | notFound (msg : Str)

/-- The environment of one `run_test` call. -/
structure Env where
  appFetch : FetchOutcome
  restoreFetch : FetchOutcome
  driver : DriverOutcome
  duration : Rat

/-- Exceptions that can cross the helper boundaries. -/
inductive PyExc where
  | runtimeError (msg : Str)
  | otherError (msg : Str)

/-- The exceptions `play_with_input` can raise. -/
inductive DriverExc where
  | timeoutExpired
  | fileNotFound (msg : Str)

/-- Modelled from the spec: `CommCareCLIRunner.play_with_input` is called
by `TestRunner.execute` (`runner.py:235`) but is absent from the sources
(`commcare_cli/runner.py` has only `run`, `validate`, `play`,
`play_interactive`).  Per spec section 4.3, the Process Driver spawns the
player with the script on stdin and a time budget, and signals a timeout
or a not-found/launch failure as distinct conditions; its outcome here is
the environment's `driver` component.  The path/script/timeout arguments
are those the caller passes. -/
def play_with_input (env : Env) (app_path restore_file stdin_input : Str)
    (timeout : Int) : Except DriverExc CompletedProcess :=
  match env.driver with
  | .completed rc out err => .ok { returncode := rc, stdout := out, stderr := err }
  | .timedOut => .error .timeoutExpired
  | .notFound msg => .error (.fileNotFound msg)

/-- `TestRunner.ensure_app_downloaded` (`runner.py:85`-`140`): any
exception from the API interaction is wrapped in a `RuntimeError`. -/
def ensure_app_downloaded (env : Env) : Except PyExc Str :=
  match env.appFetch with
  | .ok p => .ok p
  | .runtimeError m => .error (.runtimeError ("Failed to download app CCZ: ".toList ++ m))
  | .otherExc m => .error (.runtimeError ("Failed to download app CCZ: ".toList ++ m))

/-- `TestRunner.ensure_restore_downloaded` (`runner.py:142`-`209`): a
`RuntimeError` (e.g. user not found) is re-raised unchanged; any other
exception is wrapped. -/
def ensure_restore_downloaded (env : Env) : Except PyExc Str :=
  match env.restoreFetch with
  | .ok p => .ok p
  | .runtimeError m => .error (.runtimeError m)
  | .otherExc m => .error (.runtimeError ("Failed to download restore: ".toList ++ m))

/-- `TestRunner.execute` (`runner.py:215`-`264`): build the stdin script,
run the player, parse the result; `TimeoutExpired` and
`FileNotFoundError` are caught and turned into failed results. -/
def execute (env : Env) (d : TestDefinition) (ccz_path restore_path : Str) :
    TestResult :=
  let stdin_input := d.build_stdin
  match play_with_input env ccz_path restore_path stdin_input d.timeout with
  | .ok result => parse_result d result env.duration
  | .error .timeoutExpired =>
    { test_name := d.name, passed := false, duration_seconds := env.duration,
      error := some ("Test timed out after ".toList ++ (toString d.timeout).toList ++
        " seconds".toList) }
  | .error (.fileNotFound m) =>
    { test_name := d.name, passed := false, duration_seconds := env.duration,
      error := some ("CLI not found: ".toList ++ m ++
        ". Run ".toList ++ [Char.ofNat 39] ++ "cc cli build".toList ++
        [Char.ofNat 39] ++ " first.".toList) }

/-- `TestRunner.run_test` (`runner.py:386`-`432`): setup (catching
`RuntimeError`), then execute.  An `Except.error` result would be an
exception escaping to the caller. -/
def run_test (env : Env) (d : TestDefinition) : Except PyExc TestResult :=
  match (do
      let ccz_path ← ensure_app_downloaded env
      let restore_path ← ensure_restore_downloaded env
      pure (ccz_path, restore_path) : Except PyExc (Str × Str)) with
  | .error (.runtimeError m) =>
    .ok { test_name := d.name, passed := false,
          error := some ("Setup failed: ".toList ++ m) }
  | .error e => .error e
  | .ok paths => .ok (execute env d paths.1 paths.2)

/-- Outcome of the `cc test run` command (`cli/test.py:36`-`105`) up to
the runner call: a definition-parsing failure prints the error and exits
before a `TestRunner` is ever invoked. -/
inductive CliRunResult where
  | parseError (msg : Str)
  | ran (outcome : Except PyExc TestResult)

/-- The `cc test run` pipeline from a parsed YAML mapping: parse the
definition; on `ValueError`, `SystemExit(1)` without running anything;
otherwise run the test (`cli/test.py:65`-`79`). -/
def cliTestRun (data : List (Str × PyVal)) (env : Env) : CliRunResult :=
  match TestDefinition.from_dict data with
  | .error e => .parseError e
  | .ok d => .ran (run_test env d)

/-! ## Auxiliary definitions used by the theorem statements -/

/-- The Scenario A definition of spec section 8. -/
def scenarioA : TestDefinition :=
  { name := .prim (.str "t1".toList), domain := .prim (.str "p".toList),
    app_id := .prim (.str "a".toList), username := .prim (.str "u".toList),
    navigation := ["1".toList],
    answers := [("/data/name".toList, "Jane".toList)] }

/-- A navigation-only definition (no answers). -/
def defNavOnly : TestDefinition :=
  { name := .prim (.str "nav".toList), domain := .prim (.str "p".toList),
    app_id := .prim (.str "a".toList), username := .prim (.str "u".toList),
    navigation := ["1".toList, "2".toList] }

/-- A result that captured a form XML fragment. -/
def rFrag : TestResult :=
  { test_name := .prim (.str "t".toList), passed := true,
    form_xml := some "<data />".toList }

/-- A document with the four required fields set to nonempty strings,
followed by further entries. -/
def baseDoc (n d a u : Str) (tl : List (Str × PyVal)) : List (Str × PyVal) :=
  [("name".toList, .prim (.str n)), ("domain".toList, .prim (.str d)),
   ("app_id".toList, .prim (.str a)), ("username".toList, .prim (.str u))] ++ tl

/-- Follows the claim's words, for comparison with the code's
`endsWithIndex`: the reference ends in a bracketed positive integer --
a `[`, a nonempty digit run whose value is positive, then `]`. -/
def endsInBracketedPosInt (x : Str) : Bool :=
  match x.reverse with
  | ']' :: rest =>
    let ds := rest.takeWhile Char.isDigit
    !ds.isEmpty && ((rest.drop ds.length).head? == some '[') && ds.any (fun c => c ≠ '0')
  | _ => false

/-- The environment exhibits some failure: in setup, in the driver, or
in result extraction (nonzero exit or no extractable fragment). -/
def runFailure (env : Env) : Bool :=
  (match env.appFetch with | .ok _ => false | _ => true) ||
  (match env.restoreFetch with | .ok _ => false | _ => true) ||
  (match env.driver with
   | .completed rc out _ => decide (rc ≠ 0) || (extract_form_xml (out.getD [])).isNone
   | _ => true)

/-- The run ends without a completed player process: setup failure,
timeout, or player executable not found. -/
def noProcessResult (env : Env) : Bool :=
  (match env.appFetch with | .ok _ => false | _ => true) ||
  (match env.restoreFetch with | .ok _ => false | _ => true) ||
  (match env.driver with
   | .timedOut => true | .notFound _ => true | .completed _ _ _ => false)

/-- An environment whose restore download hits a missing user. -/
def envFail : Env :=
  { appFetch := .ok "app.ccz".toList,
    restoreFetch := .runtimeError "User not found".toList,
    driver := .completed 0 (some []) (some []), duration := 1 }

/-- An environment whose player process times out. -/
def envTimeout : Env :=
  { appFetch := .ok "app.ccz".toList, restoreFetch := .ok "restore.xml".toList,
    driver := .timedOut, duration := 120 }

/-- The trigger condition of the fallback scan when `in_xml` is still
false (`runner.py:366`-`369`). -/
def trigger (st : Str) : Bool :=
  "<?xml".toList.isPrefixOf st ||
    (['<'].isPrefixOf st && !("<!".toList.isPrefixOf st) && decide (st.length > 10))

/-- A line whose stripped form looks like a closing tag
(`runner.py:374`). -/
def closeLine (st : Str) : Bool :=
  "</".toList.isPrefixOf st && ['>'].isSuffixOf st

/-- The fallback scan after the `in_xml` flag has been set: every line is
accumulated, and each closing-tag-shaped line triggers the candidate
check. -/
def phase2 : List Str → List Str → Option Str
  | [], _ => Option.none
  | line :: rest, acc =>
    if closeLine (pyStrip line) then
      (if (pyStrip (pyJoin ['\n'] (acc ++ [line]))).count '<' > 3 then
        some (pyStrip (pyJoin ['\n'] (acc ++ [line])))
      else phase2 rest (acc ++ [line]))
    else phase2 rest (acc ++ [line])

/-- The fallback scan before the `in_xml` flag is set: skip lines until
one triggers, then continue as `phase2` from that line. -/
def phase1 : List Str → Option Str
  | [] => Option.none
  | line :: rest =>
    if trigger (pyStrip line) then phase2 (line :: rest) []
    else phase1 rest

/-! # Theorems -/

theorem pyJoin_cons (sep l : Str) {tl : List Str} (h : tl ≠ []) :
    pyJoin sep (l :: tl) = l ++ sep ++ pyJoin sep tl := by
  cases tl with
  | nil => exact absurd rfl h
  | cons a t => rfl

theorem mem_pyJoin_inf (sep : Str) {k : Str} {ls : List Str} (h : k ∈ ls) :
    k <:+: pyJoin sep ls := by
  induction ls with
  | nil => cases h
  | cons l tl ih =>
    cases tl with
    | nil =>
      obtain rfl : k = l := by simpa using h
      exact List.infix_refl k
    | cons a t =>
      rcases List.mem_cons.mp h with rfl | hm
      · have hpre : k <:+: k ++ (sep ++ pyJoin sep (a :: t)) :=
          (List.prefix_append k (sep ++ pyJoin sep (a :: t))).isInfix
        simpa [pyJoin_cons sep k (List.cons_ne_nil a t), List.append_assoc] using hpre
      · exact (ih hm).trans
          (List.suffix_append (l ++ sep) (pyJoin sep (a :: t))).isInfix

/-- The claim `C7`, as stated, is false on the code: `"x[0]"` does not
end in a bracketed positive integer (0 is not positive), yet
`_ensure_indexed_xpath` leaves it unchanged instead of appending `[1]`,
because the regex `\[\d+\]$` accepts any digit run. -/
theorem C7_counterexample :
    endsInBracketedPosInt "x[0]".toList = false ∧
      ensure_indexed_xpath "x[0]".toList = "x[0]".toList := by
  constructor <;> decide

theorem endsWithIndex_append_index (x : Str) :
    endsWithIndex (x ++ "[1]".toList) = true := by
  have h0 : "[1]".toList = ['[', '1', ']'] := rfl
  have h : (x ++ "[1]".toList).reverse = ']' :: '1' :: '[' :: x.reverse := by
    rw [h0, List.reverse_append]
    rfl
  have h1 : Char.isDigit '1' = true := rfl
  have h2 : Char.isDigit '[' = false := rfl
  unfold endsWithIndex
  rw [h]
  simp [List.takeWhile_cons, h1, h2]

/-- C7 (amended): `_ensure_indexed_xpath` appends `[1]` exactly when the
reference does not already end in `[<digits>]` (any digit run, zero
included), leaves it unchanged otherwise, and is idempotent. -/
theorem C7_reference_normalization (x : Str) :
    (endsWithIndex x = false → ensure_indexed_xpath x = x ++ "[1]".toList) ∧
      (endsWithIndex x = true → ensure_indexed_xpath x = x) ∧
      ensure_indexed_xpath (ensure_indexed_xpath x) = ensure_indexed_xpath x := by
  refine ⟨fun h => by simp [ensure_indexed_xpath, h],
    fun h => by simp [ensure_indexed_xpath, h], ?_⟩
  by_cases h : endsWithIndex x
  · simp [ensure_indexed_xpath, h]
  · simp only [ensure_indexed_xpath, h, if_false, Bool.false_eq_true]
    rw [if_pos (endsWithIndex_append_index x)]

/-- Witness for the amended C7 at concrete references. -/
theorem C7_reference_normalization_witness :
    (endsWithIndex "/data/q".toList = false ∧
      ensure_indexed_xpath "/data/q".toList = "/data/q".toList ++ "[1]".toList) ∧
      (endsWithIndex "/data/q[2]".toList = true ∧
        ensure_indexed_xpath "/data/q[2]".toList = "/data/q[2]".toList) :=
  ⟨⟨by decide, (C7_reference_normalization "/data/q".toList).1 (by decide)⟩,
   ⟨by decide, (C7_reference_normalization "/data/q[2]".toList).2.1 (by decide)⟩⟩

/-- The claim `C5`, as stated, is false on the code: a present but
non-coercible `timeout` value makes `from_dict` raise the `int()`
`ValueError` instead of defaulting to 120; the same document without the
`timeout` entry parses fine. -/
theorem C5_counterexample :
    TestDefinition.from_dict (baseDoc "t".toList "d".toList "a".toList "u".toList
        [("timeout".toList, .prim (.str "abc".toList))]) =
      .error ("invalid literal for int() with base 10: ".toList ++
        [Char.ofNat 39] ++ "abc".toList ++ [Char.ofNat 39]) ∧
      TestDefinition.from_dict (baseDoc "t".toList "d".toList "a".toList "u".toList []) =
        .ok { name := .prim (.str "t".toList), domain := .prim (.str "d".toList),
              app_id := .prim (.str "a".toList), username := .prim (.str "u".toList) } :=
  ⟨rfl, rfl⟩

/-- C5 (amended): with the required fields present and nonempty, the
parsed `timeout` is 120 when the field is absent; when present, Python
`int()` coercion is applied -- a successful coercion is stored, and a
coercion failure propagates as the parse error. -/
theorem C5_timeout_parsing (n d a u : Str)
    (hn : n ≠ []) (hd : d ≠ []) (ha : a ≠ []) (hu : u ≠ []) :
    (TestDefinition.from_dict (baseDoc n d a u []) =
        .ok { name := .prim (.str n), domain := .prim (.str d),
              app_id := .prim (.str a), username := .prim (.str u) }) ∧
      (∀ v t, PyVal.pyInt v = .ok t →
        TestDefinition.from_dict (baseDoc n d a u [("timeout".toList, v)]) =
          .ok { name := .prim (.str n), domain := .prim (.str d),
                app_id := .prim (.str a), username := .prim (.str u), timeout := t }) ∧
      (∀ v e, PyVal.pyInt v = .error e →
        TestDefinition.from_dict (baseDoc n d a u [("timeout".toList, v)]) = .error e) := by
  obtain ⟨c1, n, rfl⟩ : ∃ c t, n = c :: t := by cases n with
    | nil => exact absurd rfl hn
    | cons c t => exact ⟨c, t, rfl⟩
  obtain ⟨c2, d, rfl⟩ : ∃ c t, d = c :: t := by cases d with
    | nil => exact absurd rfl hd
    | cons c t => exact ⟨c, t, rfl⟩
  obtain ⟨c3, a, rfl⟩ : ∃ c t, a = c :: t := by cases a with
    | nil => exact absurd rfl ha
    | cons c t => exact ⟨c, t, rfl⟩
  obtain ⟨c4, u, rfl⟩ : ∃ c t, u = c :: t := by cases u with
    | nil => exact absurd rfl hu
    | cons c t => exact ⟨c, t, rfl⟩
  refine ⟨rfl, ?_, ?_⟩
  · intro v t hv
    have h0 : TestDefinition.from_dict
        (baseDoc (c1 :: n) (c2 :: d) (c3 :: a) (c4 :: u) [("timeout".toList, v)]) =
        (match PyVal.pyInt v with
         | .error e => Except.error e
         | .ok t =>
           Except.ok { name := .prim (.str (c1 :: n)), domain := .prim (.str (c2 :: d)),
                       app_id := .prim (.str (c3 :: a)), username := .prim (.str (c4 :: u)),
                       timeout := t }) := rfl
    rw [h0, hv]
  · intro v e hv
    have h0 : TestDefinition.from_dict
        (baseDoc (c1 :: n) (c2 :: d) (c3 :: a) (c4 :: u) [("timeout".toList, v)]) =
        (match PyVal.pyInt v with
         | .error e => Except.error e
         | .ok t =>
           Except.ok { name := .prim (.str (c1 :: n)), domain := .prim (.str (c2 :: d)),
                       app_id := .prim (.str (c3 :: a)), username := .prim (.str (c4 :: u)),
                       timeout := t }) := rfl
    rw [h0, hv]

/-- Witness for the amended C5 at a concrete document. -/
theorem C5_timeout_parsing_witness :
    TestDefinition.from_dict
        (baseDoc "t".toList "d".toList "a".toList "u".toList
          [("timeout".toList, .prim (.int 60))]) =
      .ok { name := .prim (.str "t".toList), domain := .prim (.str "d".toList),
            app_id := .prim (.str "a".toList), username := .prim (.str "u".toList),
            timeout := 60 } :=
  (C5_timeout_parsing "t".toList "d".toList "a".toList "u".toList
      (by decide) (by decide) (by decide) (by decide)).2.1 (.prim (.int 60)) 60 rfl

/-- The claim `C6`, as stated, is false on the code: the byte size of the
captured fragment is reported under the key `form_xml_size_bytes`, not
`form_fragment_size_bytes`. -/
theorem C6_counterexample :
    ("form_xml_size_bytes".toList ∈ rFrag.to_dict.map Prod.fst) ∧
      ¬ ("form_fragment_size_bytes".toList ∈ rFrag.to_dict.map Prod.fst) := by
  constructor <;> decide

/-- C6 (amended): the report dictionary uses exactly the field names
`test_name`, `passed`, `exit_code`, `duration_seconds`, optionally
`error`, and optionally `form_xml_size_bytes` (carrying the UTF-8 byte
size of the extracted fragment) -- no other names. -/
theorem C6_report_field_names (r : TestResult) :
    r.to_dict.map Prod.fst =
      ["test_name".toList, "passed".toList, "exit_code".toList,
        "duration_seconds".toList] ++
      (if optTruthy r.error then ["error".toList] else []) ++
      (if optTruthy r.form_xml then ["form_xml_size_bytes".toList] else []) ∧
      (optTruthy r.form_xml = true →
        ("form_xml_size_bytes".toList, JVal.int (utf8Len (r.form_xml.getD []))) ∈
          r.to_dict) := by
  constructor
  · by_cases he : optTruthy r.error <;> by_cases hf : optTruthy r.form_xml <;>
      simp [TestResult.to_dict, he, hf]
  · intro hf
    by_cases he : optTruthy r.error <;> simp [TestResult.to_dict, he, hf]

/-- Witness for the amended C6 at a concrete result. -/
theorem C6_report_field_names_witness :
    rFrag.to_dict.map Prod.fst =
      ["test_name".toList, "passed".toList, "exit_code".toList,
        "duration_seconds".toList] ++ [] ++ ["form_xml_size_bytes".toList] ∧
      ("form_xml_size_bytes".toList, JVal.int (utf8Len (rFrag.form_xml.getD []))) ∈
        rFrag.to_dict :=
  ⟨by
    have h := (C6_report_field_names rFrag).1
    simpa using h,
   (C6_report_field_names rFrag).2 (by decide)⟩

/-- A required field is absent from the document or bound to the empty
string. -/
def absentOrEmpty (data : List (Str × PyVal)) (k : Str) : Prop :=
  pyGet data k = Option.none ∨ pyGet data k = some (.prim (.str []))

theorem absentOrEmpty_not_truthy {data : List (Str × PyVal)} {k : Str}
    (h : absentOrEmpty data k) : (pyGetD data k (.prim .none)).truthy = false := by
  rcases h with h | h <;> simp [pyGetD, h, PyVal.truthy, PyPrim.truthy]

/-- C9: a document missing (or blanking) required fields fails
validation before any process could be spawned -- the `cc test run`
pipeline stops with a parse error whatever the environment would have
done -- and the single error message names every missing field. -/
theorem C9_validation_names_all_missing (data : List (Str × PyVal)) (env : Env)
    (hex : ∃ k ∈ requiredFields, absentOrEmpty data k) :
    ∃ msg, cliTestRun data env = .parseError msg ∧
      ∀ k ∈ requiredFields, absentOrEmpty data k → k <:+: msg := by
  have hmem : ∀ k ∈ requiredFields, absentOrEmpty data k →
      k ∈ requiredFields.filter (fun k => !(pyGetD data k (.prim .none)).truthy) := by
    intro k hk hae
    exact List.mem_filter.mpr ⟨hk, by simp [absentOrEmpty_not_truthy hae]⟩
  obtain ⟨k0, hk0, hae0⟩ := hex
  have hne : requiredFields.filter (fun k => !(pyGetD data k (.prim .none)).truthy) ≠ [] :=
    List.ne_nil_of_mem (hmem k0 hk0 hae0)
  have hempty : (requiredFields.filter
      (fun k => !(pyGetD data k (.prim .none)).truthy)).isEmpty = false := by
    cases hfe : (requiredFields.filter (fun k => !(pyGetD data k (.prim .none)).truthy)) with
    | nil => exact absurd hfe hne
    | cons a t => simp [hfe]
  have hfd : TestDefinition.from_dict data =
      .error ("Missing required fields: ".toList ++ pyJoin ", ".toList
        (requiredFields.filter (fun k => !(pyGetD data k (.prim .none)).truthy))) := by
    unfold TestDefinition.from_dict
    simp only [hempty, Bool.not_false, if_true]
  refine ⟨"Missing required fields: ".toList ++ pyJoin ", ".toList
    (requiredFields.filter (fun k => !(pyGetD data k (.prim .none)).truthy)), ?_, ?_⟩
  · unfold cliTestRun
    rw [hfd]
  · intro k hk hae
    exact (mem_pyJoin_inf ", ".toList (hmem k hk hae)).trans
      (List.suffix_append "Missing required fields: ".toList _).isInfix

/-- Witness for C9: a document with only `name` set reports `domain`,
`app_id` and `username` in one message, for any environment. -/
theorem C9_validation_names_all_missing_witness :
    ∃ msg, cliTestRun [("name".toList, .prim (.str "t".toList))] envTimeout = .parseError msg ∧
      "domain".toList <:+: msg ∧ "app_id".toList <:+: msg ∧ "username".toList <:+: msg := by
  obtain ⟨msg, hrun, hall⟩ := C9_validation_names_all_missing
    [("name".toList, .prim (.str "t".toList))] envTimeout
    ⟨"domain".toList, by decide, Or.inl rfl⟩
  exact ⟨msg, hrun,
    hall "domain".toList (by decide) (Or.inl rfl),
    hall "app_id".toList (by decide) (Or.inl rfl),
    hall "username".toList (by decide) (Or.inl rfl)⟩

theorem append_ne_nil_of_left_ne_nil {a : Str} (h : a ≠ []) (b : Str) :
    a ++ b ≠ [] := fun hc => h (List.append_eq_nil.mp hc).1

/-- C1: `run_test` is total at its boundary -- for every environment
outcome it returns a `TestResult` (never an escaping exception), and
whenever the environment exhibits a failure in setup, launch, timeout,
or result extraction, the returned result has `passed = false` and a
nonempty error message. -/
theorem C1_run_test_conversion (env : Env) (d : TestDefinition) :
    (∃ r, run_test env d = .ok r) ∧
      (runFailure env = true → ∃ r, run_test env d = .ok r ∧ r.passed = false ∧
        ∃ m, r.error = some m ∧ m ≠ []) := by
  obtain ⟨app, restore, driver, dur⟩ := env
  cases app with
  | runtimeError m =>
    refine ⟨⟨_, rfl⟩, fun _ => ⟨_, rfl, rfl, ?_⟩⟩
    exact ⟨_, rfl, append_ne_nil_of_left_ne_nil (by decide) _⟩
  | otherExc m =>
    refine ⟨⟨_, rfl⟩, fun _ => ⟨_, rfl, rfl, ?_⟩⟩
    exact ⟨_, rfl, append_ne_nil_of_left_ne_nil (by decide) _⟩
  | ok appPath =>
    cases restore with
    | runtimeError m =>
      refine ⟨⟨_, rfl⟩, fun _ => ⟨_, rfl, rfl, ?_⟩⟩
      exact ⟨_, rfl, append_ne_nil_of_left_ne_nil (by decide) _⟩
    | otherExc m =>
      refine ⟨⟨_, rfl⟩, fun _ => ⟨_, rfl, rfl, ?_⟩⟩
      exact ⟨_, rfl, append_ne_nil_of_left_ne_nil (by decide) _⟩
    | ok resPath =>
      cases driver with
      | timedOut =>
        refine ⟨⟨_, rfl⟩, fun _ => ⟨_, rfl, rfl, ?_⟩⟩
        refine ⟨_, rfl, ?_⟩
        repeat' apply append_ne_nil_of_left_ne_nil
        decide
      | notFound m =>
        refine ⟨⟨_, rfl⟩, fun _ => ⟨_, rfl, rfl, ?_⟩⟩
        refine ⟨_, rfl, ?_⟩
        repeat' apply append_ne_nil_of_left_ne_nil
        decide
      | completed rc out err =>
        have hrt : run_test
            ⟨.ok appPath, .ok resPath, .completed rc out err, dur⟩ d =
            .ok (parse_result d ⟨rc, out, err⟩ dur) := rfl
        refine ⟨⟨_, hrt⟩, fun hf => ⟨_, hrt, ?_⟩⟩
        have hf' : rc ≠ 0 ∨ extract_form_xml (out.getD []) = Option.none := by
          simpa [runFailure, Option.isNone_iff_eq_none] using hf
        by_cases hz : rc = 0
        · subst hz
          have hx : extract_form_xml (out.getD []) = Option.none := by
            rcases hf' with h | h
            · exact absurd rfl h
            · exact h
          have hpr : parse_result d ⟨0, out, err⟩ dur =
              { test_name := d.name, passed := false, stdout := out.getD [],
                stderr := err.getD [], exit_code := 0, duration_seconds := dur,
                error := some "Form XML not found in output. The form may not have completed.".toList } := by
            simp [parse_result, hx, optTruthy]
          rw [hpr]
          exact ⟨rfl, _, rfl, by decide⟩
        · have hpr : parse_result d ⟨rc, out, err⟩ dur =
              { test_name := d.name, passed := false,
                form_xml := extract_form_xml (out.getD []), stdout := out.getD [],
                stderr := err.getD [], exit_code := rc, duration_seconds := dur,
                error := some ("Process exited with code ".toList ++
                  (toString rc).toList) } := by
            simp [parse_result, hz]
          rw [hpr]
          exact ⟨rfl, _, rfl, append_ne_nil_of_left_ne_nil (by decide) _⟩

/-- Witness for C1 at a failing environment (missing user during
restore download). -/
theorem C1_run_test_conversion_witness :
    runFailure envFail = true ∧
      (∃ r, run_test envFail scenarioA = .ok r ∧ r.passed = false ∧
        ∃ m, r.error = some m ∧ m ≠ []) :=
  ⟨by decide, (C1_run_test_conversion envFail scenarioA).2 (by decide)⟩

/-- C10: when the run terminates without a completed player process
(setup failure, timeout, or executable not found), the result keeps the
constructor defaults `exit_code = -1` and `form_xml = None`, with
`passed = false` and a nonempty error. -/
theorem C10_no_process_outcome (env : Env) (d : TestDefinition)
    (h : noProcessResult env = true) :
    ∃ r, run_test env d = .ok r ∧ r.exit_code = -1 ∧ r.form_xml = Option.none ∧
      r.passed = false ∧ ∃ m, r.error = some m ∧ m ≠ [] := by
  obtain ⟨app, restore, driver, dur⟩ := env
  cases app with
  | runtimeError m =>
    refine ⟨_, rfl, rfl, rfl, rfl, ?_⟩
    exact ⟨_, rfl, append_ne_nil_of_left_ne_nil (by decide) _⟩
  | otherExc m =>
    refine ⟨_, rfl, rfl, rfl, rfl, ?_⟩
    exact ⟨_, rfl, append_ne_nil_of_left_ne_nil (by decide) _⟩
  | ok appPath =>
    cases restore with
    | runtimeError m =>
      refine ⟨_, rfl, rfl, rfl, rfl, ?_⟩
      exact ⟨_, rfl, append_ne_nil_of_left_ne_nil (by decide) _⟩
    | otherExc m =>
      refine ⟨_, rfl, rfl, rfl, rfl, ?_⟩
      exact ⟨_, rfl, append_ne_nil_of_left_ne_nil (by decide) _⟩
    | ok resPath =>
      cases driver with
      | timedOut =>
        refine ⟨_, rfl, rfl, rfl, rfl, ?_⟩
        refine ⟨_, rfl, ?_⟩
        repeat' apply append_ne_nil_of_left_ne_nil
        decide
      | notFound m =>
        refine ⟨_, rfl, rfl, rfl, rfl, ?_⟩
        refine ⟨_, rfl, ?_⟩
        repeat' apply append_ne_nil_of_left_ne_nil
        decide
      | completed rc out err =>
        exact absurd h (by simp [noProcessResult])

/-- Witness for C10 at a timeout environment. -/
theorem C10_no_process_outcome_witness :
    noProcessResult envTimeout = true ∧
      (∃ r, run_test envTimeout scenarioA = .ok r ∧ r.exit_code = -1 ∧
        r.form_xml = Option.none ∧ r.passed = false ∧ ∃ m, r.error = some m ∧ m ≠ []) :=
  ⟨by decide, C10_no_process_outcome envTimeout scenarioA (by decide)⟩

theorem fallbackLoop_count : ∀ (lines : List Str) (b : Bool) (acc : List Str) (t : Str),
    fallbackLoop lines b acc = some t → 3 < t.count '<' := by
  intro lines
  induction lines with
  | nil => intro b acc t h; exact absurd h (by simp [fallbackLoop])
  | cons line rest ih =>
    intro b acc t h
    simp only [fallbackLoop] at h
    repeat' split at h
    all_goals first
      | (injection h with h'; subst h'; assumption)
      | exact ih _ _ _ h

theorem alt1Len_shape {s : Str} {L : Nat} (h : alt1Len s = some L) :
    0 < L ∧ ∃ t, s = '<' :: t := by
  unfold alt1Len at h
  repeat' split at h
  all_goals first
    | (injection h with h'; subst h'; exact ⟨by omega, _, rfl⟩)
    | exact absurd h (by simp)

theorem alt2Len_shape {s : Str} {L : Nat} (h : alt2Len s = some L) :
    0 < L ∧ ∃ t, s = '<' :: t := by
  unfold alt2Len at h
  repeat' split at h
  all_goals first
    | (injection h with h'; subst h'; exact ⟨by omega, _, rfl⟩)
    | exact absurd h (by simp)

theorem altLen_shape {s : Str} {L : Nat} (h : altLen s = some L) :
    0 < L ∧ ∃ t, s = '<' :: t := by
  unfold altLen at h
  split at h
  case h_1 len heq =>
    obtain rfl : len = L := Option.some.inj h
    exact alt1Len_shape heq
  case h_2 => exact alt2Len_shape h

theorem searchFrom_head : ∀ {s m : Str}, searchFrom s = some m →
    ∃ rest, m = '<' :: rest := by
  intro s
  induction s with
  | nil => intro m h; exact absurd h (by simp [searchFrom])
  | cons c cs ih =>
    intro m h
    rw [searchFrom] at h
    split at h
    case h_1 len heq =>
      obtain rfl : _ = m := Option.some.inj h
      obtain ⟨hpos, t, ht⟩ := altLen_shape heq
      injection ht with h1 h2
      subst h1
      cases len with
      | zero => exact absurd hpos (by omega)
      | succ n => exact ⟨_, rfl⟩
    case h_2 => exact ih h

theorem count_dropWhile {p : Char → Bool} {c : Char} (h : p c = false) :
    ∀ l : Str, (l.dropWhile p).count c = l.count c := by
  intro l
  induction l with
  | nil => rfl
  | cons a t ih =>
    rw [List.dropWhile_cons]
    by_cases hp : p a = true
    · rw [if_pos hp, ih]
      have hne : c ≠ a := fun e => by rw [e] at h; rw [h] at hp; cases hp
      simp [List.count_cons, hne]
    · rw [if_neg hp]

theorem count_pyStrip {c : Char} (h : isPySpace c = false) (s : Str) :
    (pyStrip s).count c = s.count c := by
  unfold pyStrip pyLStrip pyRStrip
  rw [count_dropWhile h, List.count_reverse, count_dropWhile h, List.count_reverse]

theorem pyStrip_count_lt {m : Str} (hm : ∃ rest, m = '<' :: rest) :
    0 < (pyStrip m).count '<' := by
  obtain ⟨rest, rfl⟩ := hm
  rw [count_pyStrip (by decide)]
  simp [List.count_cons]

theorem extract_form_xml_ne_nil {s t : Str} (h : extract_form_xml s = some t) :
    t ≠ [] := by
  unfold extract_form_xml at h
  split at h
  · exact absurd h (by simp)
  · split at h
    case h_1 m heq =>
      obtain rfl : pyStrip m = t := Option.some.inj h
      have := pyStrip_count_lt (searchFrom_head heq)
      intro he
      rw [he] at this
      simp at this
    case h_2 =>
      have := fallbackLoop_count _ _ _ _ h
      intro he
      rw [he] at this
      simp at this

theorem optTruthy_some_of_ne_nil {t : Str} (h : t ≠ []) :
    optTruthy (some t) = true := by
  cases t with
  | nil => exact absurd rfl h
  | cons a b => rfl

theorem parse_result_passed_eq (d : TestDefinition) (p : CompletedProcess) (dur : Rat) :
    (parse_result d p dur).passed =
      (p.returncode == 0 && (extract_form_xml (p.stdout.getD [])).isSome) := by
  obtain ⟨rc, out, err⟩ := p
  by_cases hz : rc = 0
  · subst hz
    cases hx : extract_form_xml (out.getD []) with
    | none => simp [parse_result, hx, optTruthy]
    | some t =>
      have := optTruthy_some_of_ne_nil (extract_form_xml_ne_nil hx)
      simp [parse_result, hx, this]
  · simp [parse_result, hz]

/-- C2: `passed` is exactly `exit_code == 0` and a fragment was
extracted; a clean exit with no extractable fragment carries the
"Form XML not found" error. -/
theorem C2_pass_fail_rule (d : TestDefinition) (p : CompletedProcess) (dur : Rat) :
    ((parse_result d p dur).passed =
      (p.returncode == 0 && (extract_form_xml (p.stdout.getD [])).isSome)) ∧
      (p.returncode = 0 → extract_form_xml (p.stdout.getD []) = Option.none →
        (parse_result d p dur).error =
          some "Form XML not found in output. The form may not have completed.".toList) := by
  refine ⟨parse_result_passed_eq d p dur, ?_⟩
  obtain ⟨rc, out, err⟩ := p
  intro hz hx
  subst hz
  simp [parse_result, hx, optTruthy]

/-- Witness for C2 at a clean exit with markup-free output. -/
theorem C2_pass_fail_rule_witness :
    (parse_result scenarioA ⟨0, some "no xml here".toList, some []⟩ 0).error =
      some "Form XML not found in output. The form may not have completed.".toList :=
  (C2_pass_fail_rule scenarioA ⟨0, some "no xml here".toList, some []⟩ 0).2 rfl (by decide)

theorem takeWhile_middle {p : Char → Bool} {attrs : Str} (R : Str)
    (hall : ∀ x ∈ attrs, p x = true) (hstop : p '>' = false) :
    (attrs ++ '>' :: R).takeWhile p = attrs := by
  induction attrs with
  | nil => simp [List.takeWhile_cons, hstop]
  | cons a t ih =>
    have ha : p a = true := hall a (List.mem_cons_self a t)
    simp [List.takeWhile_cons, ha,
      ih (fun x hx => hall x (List.mem_cons_of_mem a hx))]

theorem findSub_isSome_append (pat a b : Str) (hp : pat.isPrefixOf b = true) :
    (findSub pat (a ++ b)).isSome = true := by
  induction a with
  | nil =>
    cases b with
    | nil =>
      have : pat = [] := by
        cases pat with
        | nil => rfl
        | cons x xs => exact absurd hp (by simp [List.isPrefixOf])
      simp [findSub, this]
    | cons c rest => simp [findSub, hp]
  | cons c a' ih =>
    rw [List.cons_append, findSub]
    split
    · simp
    · simpa using ih

theorem alt2Len_isSome {R : Str} (w : Char) (attrs : Str)
    (hw : isPySpace w = true) (ha : '>' ∉ attrs)
    (hf : (findSub "</data>".toList R).isSome = true) :
    (alt2Len ('<' :: 'd' :: 'a' :: 't' :: 'a' :: w :: (attrs ++ '>' :: R))).isSome
      = true := by
  have htw : ((attrs ++ '>' :: R).takeWhile (fun ch => decide (ch ≠ '>'))) = attrs :=
    takeWhile_middle R (fun x hx => by
      have : x ≠ '>' := fun e => ha (e ▸ hx)
      simpa using this) (by simp)
  have e : alt2Len ('<' :: 'd' :: 'a' :: 't' :: 'a' :: w :: (attrs ++ '>' :: R)) =
      (if isPySpace w then
        match (attrs ++ '>' :: R).drop
            (((attrs ++ '>' :: R).takeWhile (fun ch => decide (ch ≠ '>'))).length) with
        | '>' :: rest2 =>
          match findSub "</data>".toList rest2 with
          | some p => some (6 +
              ((attrs ++ '>' :: R).takeWhile (fun ch => decide (ch ≠ '>'))).length
              + 1 + (p + 7))
          | none => none
        | _ => none
      else none) := rfl
  rw [e, if_pos hw, htw, List.drop_left]
  obtain ⟨p, hp⟩ := Option.isSome_iff_exists.mp hf
  have hp' : findSub ['<', '/', 'd', 'a', 't', 'a', '>'] R = some p := hp
  simp [hp']

theorem altLen_isSome_of_alt2 {s : Str} (h : (alt2Len s).isSome = true) :
    (altLen s).isSome = true := by
  unfold altLen
  split
  · simp
  · exact h

theorem searchFrom_isSome_of_suffix : ∀ (s : Str) (i : Nat),
    (altLen (s.drop i)).isSome = true → (searchFrom s).isSome = true := by
  intro s
  induction s with
  | nil =>
    intro i h
    rw [List.drop_nil] at h
    exact absurd h (by simp [altLen, alt1Len, alt2Len])
  | cons c rest ih =>
    intro i h
    cases i with
    | zero =>
      rw [List.drop] at h
      rw [searchFrom]
      cases hA : altLen (c :: rest) with
      | some len => simp
      | none => rw [hA] at h; exact absurd h (by simp)
    | succ n =>
      rw [searchFrom]
      cases hA : altLen (c :: rest) with
      | some len => simp
      | none => exact ih n (by simpa using h)

/-- The claim `C4`, as stated, is false on the code: a bare
`<data>...</data>` block with no attribute text after `<data` is not
recognised -- the regex requires a whitespace after `<data`, and the
fallback scan never accepts this one-line block -- so a clean exit with
stdout `"<data>x</data>"` still yields `passed = false`. -/
theorem C4_counterexample :
    (parse_result scenarioA ⟨0, some "<data>x</data>".toList, some []⟩ 0).passed
      = false := by decide

/-- C4 (amended): a clean exit whose stdout contains a data element
written with attribute text -- `<data` followed by one whitespace, a
`>`-free attribute span, `>`, and a later `</data>` -- yields
`passed = true`; a bare `<data>` opening tag is not covered. -/
theorem C4_data_block (d : TestDefinition) (pre attrs mid post : Str) (w : Char)
    (err : Option Str) (dur : Rat) (hw : isPySpace w = true) (ha : '>' ∉ attrs) :
    (parse_result d
      ⟨0, some (pre ++ '<' :: 'd' :: 'a' :: 't' :: 'a' :: w ::
        (attrs ++ '>' :: (mid ++ ("</data>".toList ++ post)))), err⟩ dur).passed
      = true := by
  have hf : (findSub "</data>".toList (mid ++ ("</data>".toList ++ post))).isSome
      = true := by
    apply findSub_isSome_append
    have : "</data>".toList <+: ("</data>".toList ++ post) :=
      List.prefix_append _ _
    exact List.isPrefixOf_iff_prefix.mpr this
  have h2 := alt2Len_isSome w attrs hw ha hf
  have hA := altLen_isSome_of_alt2 h2
  have hdrop : (pre ++ '<' :: 'd' :: 'a' :: 't' :: 'a' :: w ::
      (attrs ++ '>' :: (mid ++ ("</data>".toList ++ post)))).drop pre.length =
      '<' :: 'd' :: 'a' :: 't' :: 'a' :: w ::
        (attrs ++ '>' :: (mid ++ ("</data>".toList ++ post))) :=
    List.drop_left _ _
  have hs : (searchFrom (pre ++ '<' :: 'd' :: 'a' :: 't' :: 'a' :: w ::
      (attrs ++ '>' :: (mid ++ ("</data>".toList ++ post))))).isSome = true := by
    apply searchFrom_isSome_of_suffix _ pre.length
    rw [hdrop]
    exact hA
  obtain ⟨m, hm⟩ := Option.isSome_iff_exists.mp hs
  have hnn : (pre ++ '<' :: 'd' :: 'a' :: 't' :: 'a' :: w ::
      (attrs ++ '>' :: (mid ++ ("</data>".toList ++ post)))) ≠ [] := by
    intro hc
    exact absurd (List.append_eq_nil.mp hc).2 (by simp)
  have hise : (pre ++ '<' :: 'd' :: 'a' :: 't' :: 'a' :: w ::
      (attrs ++ '>' :: (mid ++ ("</data>".toList ++ post)))).isEmpty = false := by
    cases he : (pre ++ '<' :: 'd' :: 'a' :: 't' :: 'a' :: w ::
        (attrs ++ '>' :: (mid ++ ("</data>".toList ++ post)))) with
    | nil => exact absurd he hnn
    | cons x xs => simp
  have hx : extract_form_xml (pre ++ '<' :: 'd' :: 'a' :: 't' :: 'a' :: w ::
      (attrs ++ '>' :: (mid ++ ("</data>".toList ++ post)))) = some (pyStrip m) := by
    unfold extract_form_xml
    rw [hise, hm]
    simp
  have hne : pyStrip m ≠ [] := extract_form_xml_ne_nil hx
  rw [parse_result_passed_eq]
  show ((0 : Int) == 0 && (extract_form_xml (pre ++ '<' :: 'd' :: 'a' :: 't' :: 'a' ::
    w :: (attrs ++ '>' :: (mid ++ ("</data>".toList ++ post))))).isSome) = true
  rw [hx]
  rfl

/-- Witness for the amended C4 at a concrete attributed data block. -/
theorem C4_data_block_witness :
    (parse_result scenarioA ⟨0, some "<data x>1</data>".toList, some []⟩ 0).passed
      = true :=
  C4_data_block scenarioA [] ['x'] "1".toList [] ' ' (some []) 0
    (by decide) (by decide)

theorem splitLines_ne_nil : ∀ s : Str, splitLines s ≠ [] := by
  intro s
  induction s with
  | nil => simp [splitLines]
  | cons c rest ih =>
    rw [splitLines]
    split
    · simp
    · split
      · simp
      · simp

theorem splitLines_of_no_newline {l : Str} (h : '\n' ∉ l) : splitLines l = [l] := by
  induction l with
  | nil => rfl
  | cons c rest ih =>
    have hc : ¬ c = '\n' := fun e => h (by rw [e]; exact List.mem_cons_self _ _)
    rw [splitLines, if_neg hc, ih (fun m => h (List.mem_cons_of_mem c m))]

theorem splitLines_append_cons {l : Str} (rest : Str) (h : '\n' ∉ l) :
    splitLines (l ++ '\n' :: rest) = l :: splitLines rest := by
  induction l with
  | nil => rw [List.nil_append, splitLines, if_pos rfl]
  | cons c t ih =>
    have hc : ¬ c = '\n' := fun e => h (by rw [e]; exact List.mem_cons_self _ _)
    rw [List.cons_append, splitLines, if_neg hc,
      ih (fun m => h (List.mem_cons_of_mem c m))]

theorem splitLines_pyJoin : ∀ {ls : List Str}, ls ≠ [] → (∀ l ∈ ls, '\n' ∉ l) →
    splitLines (pyJoin ['\n'] ls) = ls := by
  intro ls
  induction ls with
  | nil => intro h _; exact absurd rfl h
  | cons l tl ih =>
    intro _ h
    cases tl with
    | nil => exact splitLines_of_no_newline (h l (List.mem_cons_self l []))
    | cons a t =>
      have hjoin : pyJoin ['\n'] (l :: a :: t) = l ++ '\n' :: pyJoin ['\n'] (a :: t) := by
        rw [pyJoin]
        simp
      rw [hjoin, splitLines_append_cons _ (h l (List.mem_cons_self _ _)),
        ih (by simp) (fun x hx => h x (List.mem_cons_of_mem l hx))]

theorem splitLines_append_singleton (s : Str) :
    splitLines (s ++ ['\n']) = splitLines s ++ [[]] := by
  induction s with
  | nil => rfl
  | cons c rest ih =>
    by_cases hc : c = '\n'
    · subst hc
      rw [List.cons_append, splitLines, if_pos rfl, ih, splitLines, if_pos rfl]
      rfl
    · cases hr : splitLines rest with
      | nil => exact absurd hr (splitLines_ne_nil rest)
      | cons a t =>
        rw [List.cons_append, splitLines, if_neg hc, ih, hr, List.cons_append,
          splitLines, if_neg hc, hr]
        rfl

theorem not_mem_pyJoin {c : Char} {sep : Str} :
    ∀ {ls : List Str}, c ∉ sep → (∀ l ∈ ls, c ∉ l) → c ∉ pyJoin sep ls := by
  intro ls
  induction ls with
  | nil => intro _ _; simp [pyJoin]
  | cons l tl ih =>
    intro hsep h
    cases tl with
    | nil => exact h l (List.mem_cons_self l [])
    | cons a t =>
      rw [pyJoin]
      intro hm
      rcases List.mem_append.mp hm with hm1 | hm2
      · rcases List.mem_append.mp hm1 with h1 | h2
        · exact h l (List.mem_cons_self l _) h1
        · exact hsep h2
      · exact ih hsep (fun x hx => h x (List.mem_cons_of_mem l hx)) hm2

theorem not_mem_ensure_indexed {xp : Str} (h : '\n' ∉ xp) :
    '\n' ∉ ensure_indexed_xpath xp := by
  unfold ensure_indexed_xpath
  split
  · exact h
  · intro hm
    rcases List.mem_append.mp hm with h1 | h2
    · exact h h1
    · exact absurd h2 (by decide)

theorem not_mem_replayDirective {xp v : Str} (hx : '\n' ∉ xp) (hv : '\n' ∉ v) :
    '\n' ∉ replayDirective xp v := by
  have hi := not_mem_ensure_indexed hx
  unfold replayDirective
  split
  · intro hm
    rcases List.mem_append.mp hm with h1 | h2
    · rcases List.mem_append.mp h1 with h3 | h4
      · exact absurd h3 (by decide)
      · exact hi h4
    · exact absurd h2 (by decide)
  · split
    · intro hm
      rcases List.mem_append.mp hm with h1 | h2
      · rcases List.mem_append.mp h1 with h3 | h4
        · exact absurd h3 (by decide)
        · exact hi h4
      · exact absurd h2 (by decide)
    · intro hm
      rcases List.mem_append.mp hm with h1 | h2
      · rcases List.mem_append.mp h1 with h3 | h4
        · rcases List.mem_append.mp h3 with h5 | h6
          · rcases List.mem_append.mp h5 with h7 | h8
            · exact absurd h7 (by decide)
            · exact hi h8
          · exact absurd h6 (by decide)
        · exact hv h4
      · exact absurd h2 (by decide)

theorem not_mem_build_replay {d : TestDefinition}
    (h : ∀ p ∈ d.answers, '\n' ∉ p.1 ∧ '\n' ∉ p.2) :
    '\n' ∉ d.build_replay_string := by
  unfold TestDefinition.build_replay_string
  apply not_mem_pyJoin (by decide)
  intro l hl
  obtain ⟨p, hp, rfl⟩ := List.mem_map.mp hl
  exact not_mem_replayDirective (h p hp).1 (h p hp).2

/-- C3: with empty `answers`, `build_stdin` is just the navigation lines
joined and newline-terminated (no blank-line/:replay/:next block); with
non-empty `answers` the emitted lines are exactly the navigation lines,
one blank line, one `:replay` line, one `:next` line, and ten blank
lines, each newline-terminated; and the Scenario A definition encodes to
exactly the specified string. -/
theorem C3_session_script :
    (∀ d : TestDefinition, d.answers = [] →
        d.build_stdin = pyJoin ['\n'] d.navigation ++ ['\n']) ∧
      (∀ d : TestDefinition, d.answers ≠ [] → (∀ l ∈ d.navigation, '\n' ∉ l) →
        (∀ p ∈ d.answers, '\n' ∉ p.1 ∧ '\n' ∉ p.2) →
        splitLines d.build_stdin =
          (d.navigation ++ [[]] ++ [":replay ".toList ++ d.build_replay_string] ++
            [":next".toList] ++ List.replicate 10 []) ++ [[]]) ∧
      scenarioA.build_stdin =
        "1\n\n:replay ((/data/name[1]) (VALUE) (Jane))\n:next\n".toList ++
          List.replicate 10 '\n' := by
  refine ⟨?_, ?_, by decide⟩
  · intro d h
    have e : d.build_stdin = pyJoin ['\n'] (d.navigation ++
        (if d.answers.isEmpty then [] else [[]] ++
          [":replay ".toList ++ d.build_replay_string] ++ [":next".toList] ++
          List.replicate 10 [])) ++ ['\n'] := rfl
    rw [e, h]
    simp
  · intro d h hnav hans
    have e : d.build_stdin = pyJoin ['\n'] (d.navigation ++
        (if d.answers.isEmpty then [] else [[]] ++
          [":replay ".toList ++ d.build_replay_string] ++ [":next".toList] ++
          List.replicate 10 [])) ++ ['\n'] := rfl
    have hif : d.answers.isEmpty = false := by
      cases ha : d.answers with
      | nil => exact absurd ha h
      | cons x xs => rfl
    rw [e, hif]
    rw [splitLines_append_singleton, splitLines_pyJoin]
    · simp [List.append_assoc]
    · simp
    · intro l hl
      rcases List.mem_append.mp hl with h1 | h2
      · exact hnav l h1
      · simp only [Bool.false_eq_true, if_false] at h2
        rcases List.mem_append.mp h2 with h3 | h4
        · rcases List.mem_append.mp h3 with h5 | h6
          · rcases List.mem_append.mp h5 with h7 | h8
            · obtain rfl : l = [] := by simpa using h7
              simp
            · obtain rfl : l = ":replay ".toList ++ d.build_replay_string := by
                simpa using h8
              intro hm
              rcases List.mem_append.mp hm with h9 | h10
              · exact absurd h9 (by decide)
              · exact not_mem_build_replay hans h10
          · obtain rfl : l = ":next".toList := by simpa using h6
            decide
        · obtain rfl : l = [] := (List.eq_of_mem_replicate h4)
          simp

/-- Witness for C3 at the navigation-only definition and Scenario A. -/
theorem C3_session_script_witness :
    defNavOnly.build_stdin = pyJoin ['\n'] defNavOnly.navigation ++ ['\n'] ∧
      splitLines scenarioA.build_stdin =
        (scenarioA.navigation ++ [[]] ++
          [":replay ".toList ++ scenarioA.build_replay_string] ++ [":next".toList] ++
          List.replicate 10 []) ++ [[]] :=
  ⟨C3_session_script.1 defNavOnly rfl,
   C3_session_script.2.1 scenarioA (by decide) (by decide) (by decide)⟩

theorem pyRStrip_subset {c : Char} {l : Str} (h : c ∈ pyRStrip l) : c ∈ l := by
  unfold pyRStrip at h
  rw [List.mem_reverse] at h
  have := (List.dropWhile_sublist (l := l.reverse) isPySpace).subset h
  rwa [List.mem_reverse] at this

theorem pyLStrip_subset {c : Char} {l : Str} (h : c ∈ pyLStrip l) : c ∈ l :=
  (List.dropWhile_sublist isPySpace).subset h

theorem pyStrip_subset {c : Char} {l : Str} (h : c ∈ pyStrip l) : c ∈ l :=
  pyRStrip_subset (pyLStrip_subset h)

theorem splitLines_subset : ∀ (s : Str) (l : Str), l ∈ splitLines s →
    ∀ {c : Char}, c ∈ l → c ∈ s := by
  intro s
  induction s with
  | nil =>
    intro l hl c hc
    simp [splitLines] at hl
    subst hl
    simp at hc
  | cons a rest ih =>
    intro l hl c hc
    rw [splitLines] at hl
    by_cases ha : a = '\n'
    · rw [if_pos ha] at hl
      rcases List.mem_cons.mp hl with rfl | hm
      · simp at hc
      · exact List.mem_cons_of_mem a (ih l hm hc)
    · rw [if_neg ha] at hl
      cases hr : splitLines rest with
      | nil => exact absurd hr (splitLines_ne_nil rest)
      | cons x t =>
        rw [hr] at hl
        rcases List.mem_cons.mp hl with rfl | hm
        · rcases List.mem_cons.mp hc with rfl | hm2
          · exact List.mem_cons_self c rest
          · exact List.mem_cons_of_mem a
              (ih x (hr ▸ List.mem_cons_self x t) hm2)
        · exact List.mem_cons_of_mem a (ih l (hr ▸ List.mem_cons_of_mem x hm) hc)

theorem splitLines_no_newline : ∀ (s : Str) (l : Str), l ∈ splitLines s →
    '\n' ∉ l := by
  intro s
  induction s with
  | nil =>
    intro l hl
    simp [splitLines] at hl
    subst hl
    simp
  | cons a rest ih =>
    intro l hl
    rw [splitLines] at hl
    by_cases ha : a = '\n'
    · rw [if_pos ha] at hl
      rcases List.mem_cons.mp hl with rfl | hm
      · simp
      · exact ih l hm
    · rw [if_neg ha] at hl
      cases hr : splitLines rest with
      | nil => exact absurd hr (splitLines_ne_nil rest)
      | cons x t =>
        rw [hr] at hl
        rcases List.mem_cons.mp hl with rfl | hm
        · intro hc
          rcases List.mem_cons.mp hc with he | hm2
          · exact ha he.symm
          · exact ih x (hr ▸ List.mem_cons_self x t) hm2
        · exact ih l (hr ▸ List.mem_cons_of_mem x hm)

theorem pyJoin_splitLines : ∀ s : Str, pyJoin ['\n'] (splitLines s) = s := by
  intro s
  induction s with
  | nil => rfl
  | cons c rest ih =>
    rw [splitLines]
    by_cases hc : c = '\n'
    · rw [if_pos hc]
      cases hr : splitLines rest with
      | nil => exact absurd hr (splitLines_ne_nil rest)
      | cons x t =>
        rw [pyJoin, ← hr, ih, hc]
        rfl
    · rw [if_neg hc]
      cases hr : splitLines rest with
      | nil => exact absurd hr (splitLines_ne_nil rest)
      | cons x t =>
        cases t with
        | nil =>
          rw [pyJoin]
          rw [hr] at ih
          rw [pyJoin] at ih
          rw [ih]
        | cons y t' =>
          rw [pyJoin]
          rw [hr] at ih
          rw [pyJoin] at ih
          rw [← ih]
          simp

theorem searchFrom_eq_none {s : Str} (h : '<' ∉ s) : searchFrom s = Option.none := by
  induction s with
  | nil => rfl
  | cons c rest ih =>
    rw [searchFrom]
    cases hA : altLen (c :: rest) with
    | some len =>
      obtain ⟨-, t, ht⟩ := altLen_shape hA
      injection ht with h1 _
      subst h1
      exact absurd (List.mem_cons_self _ _) h
    | none => exact ih (fun m => h (List.mem_cons_of_mem c m))

theorem prefix_mem {p s : Str} {c : Char} (hc : c ∈ p)
    (h : p.isPrefixOf s = true) : c ∈ s :=
  (List.isPrefixOf_iff_prefix.mp h).subset hc

theorem fallbackLoop_none : ∀ (lines : List Str), (∀ l ∈ lines, '<' ∉ l) →
    ∀ acc, fallbackLoop lines false acc = Option.none := by
  intro lines
  induction lines with
  | nil => intro _ acc; rfl
  | cons line rest ih =>
    intro h acc
    have hlt : '<' ∉ pyStrip line :=
      fun m => h line (List.mem_cons_self _ _) (pyStrip_subset m)
    have h1 : "<?xml".toList.isPrefixOf (pyStrip line) = false := by
      cases hp : "<?xml".toList.isPrefixOf (pyStrip line) with
      | true => exact absurd (prefix_mem (by decide) hp) hlt
      | false => rfl
    have h2 : ['<'].isPrefixOf (pyStrip line) = false := by
      cases hp : ['<'].isPrefixOf (pyStrip line) with
      | true => exact absurd (prefix_mem (by decide) hp) hlt
      | false => rfl
    simp only [fallbackLoop, h1, h2, Bool.false_or, Bool.false_and, Bool.and_false,
      Bool.false_eq_true, if_false, ite_self]
    exact ih (fun l hl => h l (List.mem_cons_of_mem _ hl)) acc

theorem findSub_spec {pat : Str} : ∀ {u : Str} {p : Nat}, findSub pat u = some p →
    pat.isPrefixOf (u.drop p) = true ∧ (∀ j < p, pat.isPrefixOf (u.drop j) = false) ∧
      p ≤ u.length := by
  intro u
  induction u with
  | nil =>
    intro p h
    rw [findSub] at h
    split at h
    case isTrue hp =>
      obtain rfl : 0 = p := Option.some.inj h
      refine ⟨?_, fun j hj => absurd hj (by omega), by simp⟩
      cases pat with
      | nil => rfl
      | cons a b => simp at hp
    case isFalse => exact absurd h (by simp)
  | cons c rest ih =>
    intro p h
    rw [findSub] at h
    split at h
    case isTrue hp =>
      obtain rfl : 0 = p := Option.some.inj h
      exact ⟨hp, fun j hj => absurd hj (by omega), by simp⟩
    case isFalse hp =>
      cases hf : findSub pat rest with
      | none => rw [hf] at h; exact absurd h (by simp)
      | some q =>
        rw [hf] at h
        obtain rfl : q + 1 = p := by simpa using h
        obtain ⟨h1, h2, h3⟩ := ih hf
        refine ⟨h1, ?_, by simp; omega⟩
        intro j hj
        cases j with
        | zero => exact Bool.eq_false_iff.mpr (fun hc => hp hc)
        | succ k => exact h2 k (by omega)

theorem findSub_bound {pat u : Str} {p : Nat} (h : findSub pat u = some p) :
    p + pat.length ≤ u.length := by
  obtain ⟨h1, -, h3⟩ := findSub_spec h
  have := (List.isPrefixOf_iff_prefix.mp h1).length_le
  rw [List.length_drop] at this
  omega

theorem isPrefixOf_take {pat u : Str} {N : Nat} (h : pat.isPrefixOf u = true)
    (hN : pat.length ≤ N) : pat.isPrefixOf (u.take N) = true := by
  obtain ⟨rest, rfl⟩ := List.isPrefixOf_iff_prefix.mp h
  apply List.isPrefixOf_iff_prefix.mpr
  rw [List.take_append_eq_append_take, List.take_of_length_le hN]
  exact List.prefix_append _ _

theorem isPrefixOf_of_take {pat u : Str} {N : Nat}
    (h : pat.isPrefixOf (u.take N) = true) : pat.isPrefixOf u = true :=
  List.isPrefixOf_iff_prefix.mpr
    ((List.isPrefixOf_iff_prefix.mp h).trans (List.take_prefix N u))

theorem findSub_take {pat : Str} : ∀ {u : Str} {p N : Nat}, findSub pat u = some p →
    p + pat.length ≤ N → findSub pat (u.take N) = some p := by
  intro u
  induction u with
  | nil =>
    intro p N h _
    rw [List.take_nil]
    exact h
  | cons c rest ih =>
    intro p N h hN
    rw [findSub] at h
    split at h
    case isTrue hp =>
      obtain rfl : 0 = p := Option.some.inj h
      cases N with
      | zero =>
        have hpn : pat = [] := by
          cases pat with
          | nil => rfl
          | cons a b => simp at hN
        subst hpn
        rfl
      | succ m =>
        rw [List.take_succ_cons, findSub,
          if_pos (by
            have := isPrefixOf_take hp (N := m + 1) (by omega)
            rwa [List.take_succ_cons] at this)]
    case isFalse hp =>
      cases hf : findSub pat rest with
      | none => rw [hf] at h; exact absurd h (by simp)
      | some q =>
        rw [hf] at h
        obtain rfl : q + 1 = p := by simpa using h
        cases N with
        | zero => omega
        | succ m =>
          rw [List.take_succ_cons, findSub,
            if_neg (fun hcontra => hp (isPrefixOf_of_take (u := c :: rest) (N := m + 1)
              (by rwa [List.take_succ_cons]))),
            ih hf (by omega)]
          rfl

theorem takeWhile_length_drop (p : Char → Bool) : ∀ l : Str,
    l.drop (l.takeWhile p).length = l.dropWhile p := by
  intro l
  induction l with
  | nil => rfl
  | cons a t ih =>
    by_cases hp : p a = true
    · rw [List.takeWhile_cons, if_pos hp, List.dropWhile_cons, if_pos hp,
        List.length_cons, List.drop_succ_cons]
      exact ih
    · rw [List.takeWhile_cons, if_neg hp, List.dropWhile_cons, if_neg hp]
      rfl

theorem closeTagLen_decomp {u : Str} {L : Nat} (h : closeTagLen u = some L) :
    ∃ r tail, u = '<' :: '/' :: (r ++ '>' :: tail) ∧ r ≠ [] ∧
      (∀ c ∈ r, c ≠ '>') ∧ L = 2 + r.length + 1 := by
  unfold closeTagLen at h
  split at h
  case h_1 rest =>
    split at h
    case isTrue => exact absurd h (by simp)
    case isFalse hlen =>
      split at h
      case h_1 x tail heq =>
        obtain rfl := Option.some.inj h
        refine ⟨rest.takeWhile (fun c => decide (c ≠ '>')), tail, ?_, ?_, ?_, rfl⟩
        · have hrw : rest = rest.takeWhile (fun c => decide (c ≠ '>')) ++ '>' :: tail := by
            conv_lhs => rw [← List.takeWhile_append_dropWhile
              (p := fun c => decide (c ≠ '>')) (l := rest)]
            rw [← takeWhile_length_drop, heq]
          rw [← hrw]
        · intro hr0
          rw [hr0] at hlen
          simp at hlen
        · intro c hc
          simpa using List.mem_takeWhile_imp hc
      case h_2 => exact absurd h (by simp)
  case h_2 => exact absurd h (by simp)

theorem closeTagLen_build (r tail : Str) (hr : r ≠ []) (hmem : ∀ c ∈ r, c ≠ '>') :
    closeTagLen ('<' :: '/' :: (r ++ '>' :: tail)) = some (2 + r.length + 1) := by
  have htw : (r ++ '>' :: tail).takeWhile (fun c => decide (c ≠ '>')) = r :=
    takeWhile_middle tail (fun x hx => by simpa using hmem x hx) (by simp)
  have e : closeTagLen ('<' :: '/' :: (r ++ '>' :: tail)) =
      (if ((r ++ '>' :: tail).takeWhile (fun c => decide (c ≠ '>'))).length = 0 then
        Option.none
      else
        match (r ++ '>' :: tail).drop
            ((r ++ '>' :: tail).takeWhile (fun c => decide (c ≠ '>'))).length with
        | '>' :: _ => some (2 +
            ((r ++ '>' :: tail).takeWhile (fun c => decide (c ≠ '>'))).length + 1)
        | _ => Option.none) := rfl
  rw [e, htw, List.drop_left, if_neg (fun hc => hr (List.length_eq_zero.mp hc))]
  rfl

theorem closeTagLen_take {u : Str} {L N : Nat} (h : closeTagLen u = some L)
    (hN : L ≤ N) : closeTagLen (u.take N) = some L := by
  obtain ⟨r, tail, rfl, hr, hmem, rfl⟩ := closeTagLen_decomp h
  obtain ⟨M, rfl⟩ : ∃ M, N = M + 2 := ⟨N - 2, by omega⟩
  have e2 : ('<' :: '/' :: (r ++ '>' :: tail)).take (M + 2) =
      '<' :: '/' :: ((r ++ '>' :: tail).take M) := rfl
  rw [e2]
  have hx : (r ++ '>' :: tail).take M = r ++ '>' :: tail.take (M - r.length - 1) := by
    rw [List.take_append_eq_append_take, List.take_of_length_le (by omega)]
    congr 1
    obtain ⟨K, hK⟩ : ∃ K, M - r.length = K + 1 := ⟨M - r.length - 1, by omega⟩
    rw [hK, List.take_succ_cons]
    simp
  rw [hx]
  exact closeTagLen_build r _ hr hmem

theorem closeTagLen_of_take {u : Str} {L N : Nat}
    (h : closeTagLen (u.take N) = some L) : closeTagLen u = some L := by
  obtain ⟨r, tail, he, hr, hmem, rfl⟩ := closeTagLen_decomp h
  have hu : u = '<' :: '/' :: (r ++ '>' :: (tail ++ u.drop N)) := by
    conv_lhs => rw [← List.take_append_drop N u]
    rw [he]
    simp
  rw [hu]
  exact closeTagLen_build r _ hr hmem

theorem closeTagLen_bound {u : Str} {L : Nat} (h : closeTagLen u = some L) :
    0 < L ∧ L ≤ u.length := by
  obtain ⟨r, tail, rfl, hr, hmem, rfl⟩ := closeTagLen_decomp h
  simp [List.length_append]
  omega

theorem findCloseTag_spec : ∀ {u : Str} {q L : Nat}, findCloseTag u = some (q, L) →
    closeTagLen (u.drop q) = some L ∧
      (∀ j < q, closeTagLen (u.drop j) = Option.none) ∧ q ≤ u.length := by
  intro u
  induction u with
  | nil => intro q L h; exact absurd h (by simp [findCloseTag])
  | cons c rest ih =>
    intro q L h
    rw [findCloseTag] at h
    split at h
    case h_1 len heq =>
      obtain he := Option.some.inj h
      cases he
      exact ⟨heq, fun j hj => absurd hj (by omega), by simp⟩
    case h_2 heq0 =>
      cases hf : findCloseTag rest with
      | none => rw [hf] at h; exact absurd h (by simp)
      | some pr =>
        obtain ⟨q', L'⟩ := pr
        rw [hf] at h
        obtain he : (q' + 1, L') = (q, L) := by simpa using h
        cases he
        obtain ⟨h1, h2, h3⟩ := ih hf
        refine ⟨h1, ?_, by simp; omega⟩
        intro j hj
        cases j with
        | zero => exact heq0
        | succ k => exact h2 k (by omega)

theorem findCloseTag_take : ∀ {u : Str} {q L N : Nat}, findCloseTag u = some (q, L) →
    q + L ≤ N → findCloseTag (u.take N) = some (q, L) := by
  intro u
  induction u with
  | nil => intro q L N h _; exact absurd h (by simp [findCloseTag])
  | cons c rest ih =>
    intro q L N h hN
    rw [findCloseTag] at h
    split at h
    case h_1 len heq =>
      obtain he := Option.some.inj h
      cases he
      have hpos : 0 < L := (closeTagLen_bound heq).1
      obtain ⟨M, rfl⟩ : ∃ M, N = M + 1 := ⟨N - 1, by omega⟩
      rw [List.take_succ_cons, findCloseTag]
      have hct : closeTagLen (c :: rest.take M) = some L := by
        have := closeTagLen_take heq (N := M + 1) (by omega)
        rwa [List.take_succ_cons] at this
      rw [hct]
    case h_2 heq0 =>
      cases hf : findCloseTag rest with
      | none => rw [hf] at h; exact absurd h (by simp)
      | some pr =>
        obtain ⟨q', L'⟩ := pr
        rw [hf] at h
        obtain he : (q' + 1, L') = (q, L) := by simpa using h
        cases he
        have hL := (closeTagLen_bound (findCloseTag_spec hf).1).1
        obtain ⟨M, rfl⟩ : ∃ M, N = M + 1 := ⟨N - 1, by omega⟩
        rw [List.take_succ_cons, findCloseTag]
        have hnone : closeTagLen (c :: rest.take M) = Option.none := by
          cases hct : closeTagLen (c :: rest.take M) with
          | none => rfl
          | some l =>
            have hfull : closeTagLen (c :: rest) = some l :=
              closeTagLen_of_take (u := c :: rest) (N := M + 1)
                (by rwa [List.take_succ_cons])
            rw [hfull] at heq0
            cases heq0
        rw [hnone, ih hf (by omega)]
        rfl

theorem findCloseTag_isSome : ∀ {u : Str} (j : Nat),
    (closeTagLen (u.drop j)).isSome = true → (findCloseTag u).isSome = true := by
  intro u
  induction u with
  | nil =>
    intro j h
    rw [List.drop_nil] at h
    have hz : closeTagLen ([] : Str) = Option.none := rfl
    rw [hz] at h
    cases h
  | cons c rest ih =>
    intro j h
    rw [findCloseTag]
    cases hA : closeTagLen (c :: rest) with
    | some len => simp
    | none =>
      cases j with
      | zero =>
        rw [List.drop_zero, hA] at h
        cases h
      | succ k =>
        have hr : (closeTagLen (rest.drop k)).isSome = true := by
          rwa [List.drop_succ_cons] at h
        have := ih k hr
        simpa using this

theorem alt1Len_decomp {s : Str} {L : Nat} (h : alt1Len s = some L) :
    ∃ c rest p q clen, s = '<' :: '?' :: 'x' :: 'm' :: 'l' :: c :: rest ∧
      isPySpace c = true ∧ findSub ['?', '>'] rest = some p ∧
      findCloseTag (rest.drop (p + 2)) = some (q, clen) ∧
      L = 6 + (p + 2) + (q + clen) := by
  unfold alt1Len at h
  repeat' split at h
  all_goals first
    | (injection h with h'
       subst h'
       exact ⟨_, _, _, _, _, rfl, by assumption, by assumption, by assumption, rfl⟩)
    | exact absurd h (by simp)

theorem alt2Len_decomp {s : Str} {L : Nat} (h : alt2Len s = some L) :
    ∃ c attrs rest2 p,
      s = '<' :: 'd' :: 'a' :: 't' :: 'a' :: c :: (attrs ++ '>' :: rest2) ∧
      isPySpace c = true ∧ (∀ x ∈ attrs, x ≠ '>') ∧
      findSub "</data>".toList rest2 = some p ∧
      L = 6 + attrs.length + 1 + (p + 7) := by
  unfold alt2Len at h
  split at h
  case h_2 => exact absurd h (by simp)
  case h_1 c rest =>
    split at h
    case isFalse => exact absurd h (by simp)
    case isTrue hws =>
      split at h
      case h_2 => exact absurd h (by simp)
      case h_1 rest2 heq =>
        split at h
        case h_2 => exact absurd h (by simp)
        case h_1 p hfs =>
          injection h with h'
          subst h'
          refine ⟨c, rest.takeWhile (fun ch => decide (ch ≠ '>')), rest2, p,
            ?_, hws, ?_, hfs, rfl⟩
          · have hrw : rest =
                rest.takeWhile (fun ch => decide (ch ≠ '>')) ++ '>' :: rest2 := by
              conv_lhs => rw [← List.takeWhile_append_dropWhile
                (p := fun ch => decide (ch ≠ '>')) (l := rest)]
              rw [← takeWhile_length_drop, heq]
            rw [← hrw]
          · intro x hx
            simpa using List.mem_takeWhile_imp hx

theorem alt1Len_build (c : Char) (rest : Str) (hws : isPySpace c = true)
    {p q clen : Nat} (hfs : findSub ['?', '>'] rest = some p)
    (hfc : findCloseTag (rest.drop (p + 2)) = some (q, clen)) :
    alt1Len ('<' :: '?' :: 'x' :: 'm' :: 'l' :: c :: rest) =
      some (6 + (p + 2) + (q + clen)) := by
  have e : alt1Len ('<' :: '?' :: 'x' :: 'm' :: 'l' :: c :: rest) =
      (if isPySpace c then
        match findSub ['?', '>'] rest with
        | some p =>
          match findCloseTag (rest.drop (p + 2)) with
          | some (q, len) => some (6 + (p + 2) + (q + len))
          | Option.none => Option.none
        | Option.none => Option.none
      else Option.none) := rfl
  rw [e, if_pos hws, hfs]
  simp [hfc]

theorem alt2Len_build (c : Char) (attrs rest2 : Str) (hws : isPySpace c = true)
    (hmem : ∀ x ∈ attrs, x ≠ '>') {p : Nat}
    (hfs : findSub "</data>".toList rest2 = some p) :
    alt2Len ('<' :: 'd' :: 'a' :: 't' :: 'a' :: c :: (attrs ++ '>' :: rest2)) =
      some (6 + attrs.length + 1 + (p + 7)) := by
  have htw : (attrs ++ '>' :: rest2).takeWhile (fun ch => decide (ch ≠ '>')) = attrs :=
    takeWhile_middle rest2 (fun x hx => by simpa using hmem x hx) (by simp)
  have e : alt2Len ('<' :: 'd' :: 'a' :: 't' :: 'a' :: c :: (attrs ++ '>' :: rest2)) =
      (if isPySpace c then
        match (attrs ++ '>' :: rest2).drop
            (((attrs ++ '>' :: rest2).takeWhile (fun ch => decide (ch ≠ '>'))).length) with
        | '>' :: r2 =>
          match findSub "</data>".toList r2 with
          | some p => some (6 +
              ((attrs ++ '>' :: rest2).takeWhile (fun ch => decide (ch ≠ '>'))).length
              + 1 + (p + 7))
          | Option.none => Option.none
        | _ => Option.none
      else Option.none) := rfl
  rw [e, if_pos hws, htw, List.drop_left]
  have hfs' : findSub ['<', '/', 'd', 'a', 't', 'a', '>'] rest2 = some p := hfs
  simp [hfs']

theorem alt1Len_take {u : Str} {L : Nat} (h : alt1Len u = some L) :
    L ≤ u.length ∧ alt1Len (u.take L) = some L := by
  obtain ⟨c, rest, p, q, clen, rfl, hws, hfs, hfc, rfl⟩ := alt1Len_decomp h
  obtain ⟨hcspec, -, hqb⟩ := findCloseTag_spec hfc
  have hcb := closeTagLen_bound hcspec
  have hfb := findSub_bound hfs
  have h2 : (['?', '>'] : Str).length = 2 := rfl
  rw [h2] at hfb
  have hclen := hcb.2
  rw [List.length_drop, List.length_drop] at hclen
  rw [List.length_drop] at hqb
  constructor
  · simp
    omega
  · have e2 : ('<' :: '?' :: 'x' :: 'm' :: 'l' :: c :: rest).take
        (6 + (p + 2) + (q + clen)) =
        '<' :: '?' :: 'x' :: 'm' :: 'l' :: c :: rest.take ((p + 2) + (q + clen)) := by
      rw [show 6 + (p + 2) + (q + clen) = ((p + 2) + (q + clen)) + 6 from by omega]
      rfl
    rw [e2]
    apply alt1Len_build c _ hws
    · exact findSub_take hfs (by rw [h2]; omega)
    · rw [List.drop_take,
        show (p + 2) + (q + clen) - (p + 2) = q + clen from by omega]
      exact findCloseTag_take hfc (by omega)

theorem alt2Len_take {u : Str} {L : Nat} (h : alt2Len u = some L) :
    L ≤ u.length ∧ alt2Len (u.take L) = some L := by
  obtain ⟨c, attrs, rest2, p, rfl, hws, hmem, hfs, rfl⟩ := alt2Len_decomp h
  have hfb := findSub_bound hfs
  have h7 : ("</data>".toList).length = 7 := rfl
  rw [h7] at hfb
  constructor
  · simp [List.length_append]
    omega
  · have e2 : ('<' :: 'd' :: 'a' :: 't' :: 'a' :: c :: (attrs ++ '>' :: rest2)).take
        (6 + attrs.length + 1 + (p + 7)) =
        '<' :: 'd' :: 'a' :: 't' :: 'a' :: c ::
          ((attrs ++ '>' :: rest2).take (attrs.length + 1 + (p + 7))) := by
      rw [show 6 + attrs.length + 1 + (p + 7) = (attrs.length + 1 + (p + 7)) + 6
        from by omega]
      rfl
    rw [e2]
    have hx : (attrs ++ '>' :: rest2).take (attrs.length + 1 + (p + 7)) =
        attrs ++ '>' :: rest2.take (p + 7) := by
      rw [List.take_append_eq_append_take, List.take_of_length_le (by omega)]
      congr 1
      rw [show attrs.length + 1 + (p + 7) - attrs.length = (p + 7) + 1 from by omega,
        List.take_succ_cons]
    rw [hx]
    apply alt2Len_build c attrs _ hws hmem
    exact findSub_take hfs (by rw [h7])

theorem alt2Len_ge {s : Str} {L : Nat} (h : alt2Len s = some L) : 2 ≤ L := by
  obtain ⟨c, attrs, rest2, p, rfl, -, -, -, rfl⟩ := alt2Len_decomp h
  omega

theorem alt2Len_starts {s : Str} {L : Nat} (h : alt2Len s = some L) :
    ∃ t, s = '<' :: 'd' :: t := by
  obtain ⟨c, attrs, rest2, p, rfl, -, -, -, -⟩ := alt2Len_decomp h
  exact ⟨_, rfl⟩

theorem alt1Len_none_of_d (t : Str) : alt1Len ('<' :: 'd' :: t) = Option.none := rfl

theorem altLen_take {u : Str} {L : Nat} (h : altLen u = some L) :
    L ≤ u.length ∧ altLen (u.take L) = some L := by
  unfold altLen at h ⊢
  split at h
  case h_1 len heq =>
    obtain rfl := Option.some.inj h
    obtain ⟨hb, ht⟩ := alt1Len_take heq
    exact ⟨hb, by simp [ht]⟩
  case h_2 heq =>
    obtain ⟨hb, ht⟩ := alt2Len_take h
    refine ⟨hb, ?_⟩
    obtain ⟨t, hs⟩ := alt2Len_starts h
    have h2L := alt2Len_ge h
    have htake : u.take L = '<' :: 'd' :: t.take (L - 2) := by
      rw [hs]
      obtain ⟨M, rfl⟩ : ∃ M, L = M + 2 := ⟨L - 2, by omega⟩
      rw [show M + 2 - 2 = M from by omega]
      rfl
    have h1 : alt1Len (u.take L) = Option.none := by
      rw [htake]
      exact alt1Len_none_of_d _
    simp [h1, ht]

theorem altLen_full_ends {v : Str} {L : Nat} (h : altLen v = some L)
    (hlen : v.length = L) : ∃ A, v = A ++ ['>'] := by
  unfold altLen at h
  split at h
  case h_1 len heq =>
    obtain rfl := Option.some.inj h
    obtain ⟨c, rest, p, q, clen, rfl, hws, hfs, hfc, rfl⟩ := alt1Len_decomp heq
    obtain ⟨hcspec, -, -⟩ := findCloseTag_spec hfc
    rw [List.drop_drop] at hcspec
    obtain ⟨r, tail, hdec, hr, hmem, rfl⟩ := closeTagLen_decomp hcspec
    have hrl : rest.length = (p + 2) + (q + (2 + r.length + 1)) := by
      simp at hlen
      omega
    have hdl : (rest.drop ((p + 2) + q)).length = 2 + r.length + 1 + tail.length := by
      rw [hdec]
      simp [List.length_append]
      omega
    rw [List.length_drop] at hdl
    have htail : tail = [] := List.length_eq_zero.mp (by omega)
    subst htail
    have hre : rest = rest.take ((p + 2) + q) ++ ('<' :: '/' :: (r ++ '>' :: [])) := by
      conv_lhs => rw [← List.take_append_drop ((p + 2) + q) rest]
      rw [hdec]
    refine ⟨'<' :: '?' :: 'x' :: 'm' :: 'l' :: c ::
      (rest.take ((p + 2) + q) ++ ('<' :: '/' :: r)), ?_⟩
    conv_lhs => rw [hre]
    simp
  case h_2 =>
    obtain ⟨c, attrs, rest2, p, rfl, hws, hmem, hfs, rfl⟩ := alt2Len_decomp h
    have hsp := (findSub_spec hfs).1
    have h7 : ("</data>".toList).length = 7 := rfl
    have hlen2 : rest2.length = p + 7 := by
      simp [List.length_append] at hlen
      omega
    have hdrop : "</data>".toList = rest2.drop p := by
      apply (List.isPrefixOf_iff_prefix.mp hsp).eq_of_length
      rw [List.length_drop]
      omega
    have hre : rest2 = rest2.take p ++ "</data>".toList := by
      conv_lhs => rw [← List.take_append_drop p rest2]
      rw [← hdrop]
    refine ⟨'<' :: 'd' :: 'a' :: 't' :: 'a' :: c ::
      (attrs ++ '>' :: (rest2.take p ++ ['<', '/', 'd', 'a', 't', 'a'])), ?_⟩
    conv_lhs => rw [hre]
    have he7 : "</data>".toList = ['<', '/', 'd', 'a', 't', 'a'] ++ ['>'] := rfl
    rw [he7]
    simp

theorem pyStrip_eq_self {m : Str} (h1 : ∃ t, m = '<' :: t)
    (h2 : m.getLast? = some '>') : pyStrip m = m := by
  obtain ⟨t, rfl⟩ := h1
  have hrev : ('<' :: t).reverse.head? = some '>' := by
    rw [List.head?_reverse]
    exact h2
  obtain ⟨w, hw⟩ : ∃ w, ('<' :: t).reverse = '>' :: w := by
    cases hr : ('<' :: t).reverse with
    | nil => rw [hr] at hrev; cases hrev
    | cons a w =>
      rw [hr] at hrev
      injection hrev with ha
      subst ha
      exact ⟨w, rfl⟩
  unfold pyStrip pyRStrip pyLStrip
  rw [hw, List.dropWhile_cons, if_neg (by decide), ← hw, List.reverse_reverse,
    List.dropWhile_cons, if_neg (by decide)]

theorem searchFrom_decomp : ∀ {s m : Str}, searchFrom s = some m →
    ∃ i L, altLen (s.drop i) = some L ∧ m = (s.drop i).take L := by
  intro s
  induction s with
  | nil => intro m h; exact absurd h (by simp [searchFrom])
  | cons c rest ih =>
    intro m h
    rw [searchFrom] at h
    split at h
    case h_1 len heq =>
      obtain rfl := Option.some.inj h
      exact ⟨0, len, by simpa using heq, by simp⟩
    case h_2 =>
      obtain ⟨i, L, hA, hm⟩ := ih h
      exact ⟨i + 1, L, hA, hm⟩

theorem extract_idem_search {s m : Str} (hs : searchFrom s = some m) :
    extract_form_xml (pyStrip m) = some (pyStrip m) := by
  obtain ⟨i, L, hA, rfl⟩ := searchFrom_decomp hs
  obtain ⟨hL, hAt⟩ := altLen_take hA
  have hpos : 0 < L := (altLen_shape hA).1
  have hlen : ((s.drop i).take L).length = L := by
    rw [List.length_take]
    omega
  have hhead : ∃ t, (s.drop i).take L = '<' :: t := by
    obtain ⟨-, t, ht⟩ := altLen_shape hA
    rw [ht]
    cases L with
    | zero => omega
    | succ n => exact ⟨_, rfl⟩
  have hends : ((s.drop i).take L).getLast? = some '>' := by
    obtain ⟨A, hA2⟩ := altLen_full_ends hAt hlen
    rw [hA2, List.getLast?_concat]
  have hstrip : pyStrip ((s.drop i).take L) = (s.drop i).take L :=
    pyStrip_eq_self hhead hends
  rw [hstrip]
  obtain ⟨t, ht⟩ := hhead
  have hsearch : searchFrom ((s.drop i).take L) = some ((s.drop i).take L) := by
    have hlen' : ('<' :: t).length = L := by rw [← ht]; exact hlen
    rw [ht] at hAt ⊢
    rw [searchFrom, hAt]
    show some (('<' :: t).take L) = some ('<' :: t)
    rw [← hlen', List.take_length]
  have hie : ((s.drop i).take L).isEmpty = false := by
    rw [ht]
    rfl
  unfold extract_form_xml
  simp only [hie, Bool.false_eq_true, if_false, hsearch, hstrip]

theorem findSub_isSome_of_pref {pat : Str} : ∀ {w : Str} (j : Nat),
    pat.isPrefixOf (w.drop j) = true → (findSub pat w).isSome = true := by
  intro w
  induction w with
  | nil =>
    intro j h
    rw [List.drop_nil] at h
    have hp : pat = [] := by
      cases pat with
      | nil => rfl
      | cons a b => simp [List.isPrefixOf] at h
    subst hp
    rfl
  | cons c rest ih =>
    intro j h
    rw [findSub]
    by_cases hp : pat.isPrefixOf (c :: rest) = true
    · rw [if_pos hp]
      rfl
    · rw [if_neg hp]
      cases j with
      | zero => rw [List.drop_zero] at h; exact absurd h hp
      | succ k =>
        have := ih k (by rwa [List.drop_succ_cons] at h)
        simpa using this

theorem closeTagLen_append {u v : Str} {L : Nat} (h : closeTagLen u = some L) :
    closeTagLen (u ++ v) = some L := by
  obtain ⟨r, tail, rfl, hr, hmem, rfl⟩ := closeTagLen_decomp h
  have e : ('<' :: '/' :: (r ++ '>' :: tail)) ++ v =
      '<' :: '/' :: (r ++ '>' :: (tail ++ v)) := by simp
  rw [e]
  exact closeTagLen_build r _ hr hmem

theorem isPrefixOf_append {pat u : Str} (v : Str) (h : pat.isPrefixOf u = true) :
    pat.isPrefixOf (u ++ v) = true :=
  List.isPrefixOf_iff_prefix.mpr
    ((List.isPrefixOf_iff_prefix.mp h).trans (List.prefix_append u v))

theorem alt1Len_append_isSome {u : Str} (v : Str) {L : Nat} (h : alt1Len u = some L) :
    (alt1Len (u ++ v)).isSome = true := by
  obtain ⟨c, rest, p, q, clen, rfl, hws, hfs, hfc, rfl⟩ := alt1Len_decomp h
  have hfb := findSub_bound hfs
  have h2 : (['?', '>'] : Str).length = 2 := rfl
  rw [h2] at hfb
  have hpre : (['?', '>'] : Str).isPrefixOf ((rest ++ v).drop p) = true := by
    rw [List.drop_append_of_le_length (by omega)]
    exact isPrefixOf_append v (findSub_spec hfs).1
  obtain ⟨p', hp'⟩ := Option.isSome_iff_exists.mp (findSub_isSome_of_pref p hpre)
  have hple : p' ≤ p := by
    by_contra hgt
    have hfail := (findSub_spec hp').2.1 p (by omega)
    rw [hfail] at hpre
    cases hpre
  obtain ⟨hcspec, -, -⟩ := findCloseTag_spec hfc
  rw [List.drop_drop] at hcspec
  have hqlen := (findCloseTag_spec hfc).2.2
  rw [List.length_drop] at hqlen
  have hc2 : closeTagLen ((rest ++ v).drop ((p + 2) + q)) = some clen := by
    rw [List.drop_append_of_le_length (by omega)]
    exact closeTagLen_append hcspec
  have hfcs : (findCloseTag ((rest ++ v).drop (p' + 2))).isSome = true := by
    apply findCloseTag_isSome (((p + 2) + q) - (p' + 2))
    rw [List.drop_drop,
      show (p' + 2) + (((p + 2) + q) - (p' + 2)) = (p + 2) + q from by omega, hc2]
    rfl
  obtain ⟨pr, hpr⟩ := Option.isSome_iff_exists.mp hfcs
  obtain ⟨q2, c2⟩ := pr
  have e : alt1Len (('<' :: '?' :: 'x' :: 'm' :: 'l' :: c :: rest) ++ v) =
      alt1Len ('<' :: '?' :: 'x' :: 'm' :: 'l' :: c :: (rest ++ v)) := rfl
  rw [e, alt1Len_build c (rest ++ v) hws hp' hpr]
  rfl

theorem alt2Len_append_isSome {u : Str} (v : Str) {L : Nat} (h : alt2Len u = some L) :
    (alt2Len (u ++ v)).isSome = true := by
  obtain ⟨c, attrs, rest2, p, rfl, hws, hmem, hfs, rfl⟩ := alt2Len_decomp h
  have hfb := findSub_bound hfs
  have h7 : ("</data>".toList).length = 7 := rfl
  rw [h7] at hfb
  have hpre : ("</data>".toList).isPrefixOf ((rest2 ++ v).drop p) = true := by
    rw [List.drop_append_of_le_length (by omega)]
    exact isPrefixOf_append v (findSub_spec hfs).1
  obtain ⟨p', hp'⟩ := Option.isSome_iff_exists.mp (findSub_isSome_of_pref p hpre)
  have e : ('<' :: 'd' :: 'a' :: 't' :: 'a' :: c :: (attrs ++ '>' :: rest2)) ++ v =
      '<' :: 'd' :: 'a' :: 't' :: 'a' :: c :: (attrs ++ '>' :: (rest2 ++ v)) := by
    simp
  rw [e, alt2Len_build c attrs (rest2 ++ v) hws hmem hp']
  rfl

theorem altLen_append_isSome {u : Str} (v : Str) (h : (altLen u).isSome = true) :
    (altLen (u ++ v)).isSome = true := by
  unfold altLen at h ⊢
  split at h
  case h_1 len heq =>
    obtain ⟨l2, hl2⟩ := Option.isSome_iff_exists.mp (alt1Len_append_isSome v heq)
    rw [hl2]
    rfl
  case h_2 heq =>
    obtain ⟨L, hL⟩ := Option.isSome_iff_exists.mp h
    have h2 := alt2Len_append_isSome v hL
    cases hA : alt1Len (u ++ v) with
    | some l => rfl
    | none => exact h2

theorem searchFrom_none_altLen {s : Str} (h : searchFrom s = Option.none) (i : Nat) :
    altLen (s.drop i) = Option.none := by
  cases hA : altLen (s.drop i) with
  | none => rfl
  | some L =>
    have hs := searchFrom_isSome_of_suffix s i (by rw [hA]; rfl)
    rw [h] at hs
    cases hs

theorem searchFrom_none_infix {s t : Str} (hinf : t <:+: s)
    (hs : searchFrom s = Option.none) : searchFrom t = Option.none := by
  obtain ⟨u, v, huv⟩ := hinf
  cases hT : searchFrom t with
  | none => rfl
  | some m =>
    obtain ⟨i, L, hA, -⟩ := searchFrom_decomp hT
    have hi : i ≤ t.length := by
      obtain ⟨-, x, hx⟩ := altLen_shape hA
      by_contra hgt
      rw [List.drop_eq_nil_of_le (by omega)] at hx
      cases hx
    have hsome : (altLen ((u ++ t ++ v).drop (u.length + i))).isSome = true := by
      have hd : (u ++ t ++ v).drop (u.length + i) = t.drop i ++ v := by
        rw [List.append_assoc, List.drop_append, List.drop_append_of_le_length hi]
      rw [hd]
      exact altLen_append_isSome v (by rw [hA]; rfl)
    have hss := searchFrom_isSome_of_suffix _ _ hsome
    rw [huv, hs] at hss
    cases hss

theorem pyStrip_inf (x : Str) : pyStrip x <:+: x := by
  have h1 : pyRStrip x <+: x := by
    unfold pyRStrip
    have h2 : x.reverse.dropWhile isPySpace <:+ x.reverse :=
      List.dropWhile_suffix isPySpace
    have := List.reverse_prefix.mpr h2
    rwa [List.reverse_reverse] at this
  exact ((List.dropWhile_suffix isPySpace).isInfix).trans h1.isInfix

theorem pyJoin_append_ne {sep : Str} {A B : List Str} (hA : A ≠ []) (hB : B ≠ []) :
    pyJoin sep (A ++ B) = pyJoin sep A ++ sep ++ pyJoin sep B := by
  induction A with
  | nil => cases hA rfl
  | cons a as ih =>
    cases as with
    | nil =>
      cases B with
      | nil => cases hB rfl
      | cons b bs => rfl
    | cons a2 as2 =>
      have e : (a :: a2 :: as2) ++ B = a :: ((a2 :: as2) ++ B) := rfl
      rw [e]
      have e2 : (a2 :: as2) ++ B = a2 :: (as2 ++ B) := rfl
      rw [show pyJoin sep (a :: ((a2 :: as2) ++ B)) =
          a ++ sep ++ pyJoin sep ((a2 :: as2) ++ B) from by rw [e2]; rfl]
      rw [ih (by simp), pyJoin]
      simp

theorem infix_pyJoin_of_middle {sep : Str} {uu : List Str} (A B : List Str)
    (hne : uu ≠ []) : pyJoin sep uu <:+: pyJoin sep ((A ++ uu) ++ B) := by
  rcases eq_or_ne A [] with rfl | hA
  · rcases eq_or_ne B [] with rfl | hB
    · simp
    · rw [List.nil_append, pyJoin_append_ne hne hB]
      have := List.infix_append ([] : Str) (pyJoin sep uu) (sep ++ pyJoin sep B)
      simpa [List.append_assoc] using this
  · rcases eq_or_ne B [] with rfl | hB
    · rw [List.append_nil, pyJoin_append_ne hA hne]
      have := List.infix_append (pyJoin sep A ++ sep) (pyJoin sep uu) ([] : Str)
      simpa [List.append_assoc] using this
    · rw [pyJoin_append_ne (by simp [hA]) hB, pyJoin_append_ne hA hne]
      have := List.infix_append (pyJoin sep A ++ sep) (pyJoin sep uu)
        (sep ++ pyJoin sep B)
      simpa [List.append_assoc] using this

theorem dropWhile_append_ne {p : Char → Bool} : ∀ {x : Str} (y : Str),
    x.dropWhile p ≠ [] → (x ++ y).dropWhile p = x.dropWhile p ++ y := by
  intro x
  induction x with
  | nil => intro y h; simp at h
  | cons c t ih =>
    intro y h
    rw [List.cons_append, List.dropWhile_cons]
    by_cases hc : p c = true
    · rw [if_pos hc]
      rw [List.dropWhile_cons, if_pos hc] at h ⊢
      exact ih y h
    · rw [if_neg hc]
      rw [List.dropWhile_cons, if_neg hc]
      rfl

theorem dropWhile_append_spaces {p : Char → Bool} : ∀ {w : Str} (z : Str),
    (∀ c ∈ w, p c = true) → (w ++ z).dropWhile p = z.dropWhile p := by
  intro w
  induction w with
  | nil => intro z _; rfl
  | cons c t ih =>
    intro z h
    rw [List.cons_append, List.dropWhile_cons, if_pos (h c (List.mem_cons_self c t))]
    exact ih z (fun x hx => h x (List.mem_cons_of_mem _ hx))

theorem pyLStrip_append {a : Str} (b : Str) (h : pyLStrip a ≠ []) :
    pyLStrip (a ++ b) = pyLStrip a ++ b :=
  dropWhile_append_ne b h

theorem pyRStrip_append (a : Str) {b : Str} (h : pyRStrip b ≠ []) :
    pyRStrip (a ++ b) = a ++ pyRStrip b := by
  unfold pyRStrip at *
  rw [List.reverse_append,
    dropWhile_append_ne _ (fun hc => h (by rw [hc]; rfl))]
  simp

theorem dropWhile_head_false {p : Char → Bool} : ∀ {x : Str} {c : Char} {t : Str},
    x.dropWhile p = c :: t → p c = false := by
  intro x
  induction x with
  | nil => intro c t h; cases h
  | cons a y ih =>
    intro c t h
    rw [List.dropWhile_cons] at h
    by_cases ha : p a = true
    · rw [if_pos ha] at h
      exact ih h
    · rw [if_neg ha] at h
      injection h with h1 _
      subst h1
      exact Bool.eq_false_iff.mpr ha

theorem all_spaces_pyRStrip {x : Str} (h : ∀ c ∈ x, isPySpace c = true) :
    pyRStrip x = [] := by
  unfold pyRStrip
  rw [List.dropWhile_eq_nil_iff.mpr (fun c hc => h c (List.mem_reverse.mp hc))]
  rfl

theorem dropWhile_idem {p : Char → Bool} (l : Str) :
    (l.dropWhile p).dropWhile p = l.dropWhile p := by
  induction l with
  | nil => rfl
  | cons c t ih =>
    rw [List.dropWhile_cons]
    by_cases hc : p c = true
    · rw [if_pos hc]
      exact ih
    · rw [if_neg hc, List.dropWhile_cons, if_neg hc]

theorem pyRStrip_idem (x : Str) : pyRStrip (pyRStrip x) = pyRStrip x := by
  unfold pyRStrip
  rw [List.reverse_reverse]
  rw [dropWhile_idem]

theorem pyStrip_pyRStrip (x : Str) : pyStrip (pyRStrip x) = pyStrip x := by
  unfold pyStrip
  rw [pyRStrip_idem]

theorem pyStrip_pyLStrip (x : Str) : pyStrip (pyLStrip x) = pyStrip x := by
  have hx : x.takeWhile isPySpace ++ pyLStrip x = x :=
    List.takeWhile_append_dropWhile _ _
  have hw : ∀ c ∈ x.takeWhile isPySpace, isPySpace c = true :=
    fun c hc => List.mem_takeWhile_imp hc
  cases hy : pyLStrip x with
  | nil =>
    have hall : ∀ c ∈ x, isPySpace c = true := List.dropWhile_eq_nil_iff.mp hy
    show pyStrip [] = pyStrip x
    unfold pyStrip
    rw [all_spaces_pyRStrip hall]
    rfl
  | cons c t =>
    have hpc : isPySpace c = false := dropWhile_head_false hy
    have hne : pyRStrip (c :: t) ≠ [] := by
      intro hc
      have h0 : (c :: t).reverse.dropWhile isPySpace = [] := by
        unfold pyRStrip at hc
        have h1 := congrArg List.reverse hc
        rwa [List.reverse_reverse, List.reverse_nil] at h1
      have hall2 := List.dropWhile_eq_nil_iff.mp h0
      have h2 := hall2 c (List.mem_reverse.mpr (List.mem_cons_self c t))
      rw [hpc] at h2
      cases h2
    conv_rhs => rw [← hx, hy]
    show pyStrip (c :: t) = pyStrip (x.takeWhile isPySpace ++ (c :: t))
    unfold pyStrip
    rw [pyRStrip_append _ hne]
    unfold pyLStrip
    rw [dropWhile_append_spaces _ hw]

theorem pyStrip_idem (x : Str) : pyStrip (pyStrip x) = pyStrip x := by
  show pyStrip (pyLStrip (pyRStrip x)) = pyStrip x
  rw [pyStrip_pyLStrip, pyStrip_pyRStrip]

theorem count_pyJoin {c : Char} {sep : Str} (hc : c ∉ sep) : ∀ ls : List Str,
    (pyJoin sep ls).count c = (ls.map (fun l => l.count c)).sum := by
  intro ls
  induction ls with
  | nil => rfl
  | cons l tl ih =>
    cases tl with
    | nil => simp [pyJoin]
    | cons a t =>
      rw [pyJoin_cons _ _ (by simp), List.count_append, List.count_append, ih]
      have h0 : sep.count c = 0 := List.count_eq_zero.mpr hc
      simp [h0]

theorem count_candidate (ls : List Str) :
    (pyStrip (pyJoin ['\n'] ls)).count '<' =
      (ls.map (fun l => l.count '<')).sum := by
  rw [count_pyStrip (by decide), count_pyJoin (by decide)]

theorem pyStrip_join_struct {l0 lk : Str} (mid : List Str)
    (h0 : pyLStrip l0 ≠ []) (hk : pyRStrip lk ≠ []) :
    pyStrip (pyJoin ['\n'] (l0 :: (mid ++ [lk]))) =
      pyJoin ['\n'] (pyLStrip l0 :: (mid ++ [pyRStrip lk])) := by
  rw [pyJoin_cons _ _ (by simp), pyJoin_cons _ _ (by simp)]
  cases mid with
  | nil =>
    show pyStrip (l0 ++ ['\n'] ++ lk) = pyLStrip l0 ++ ['\n'] ++ pyRStrip lk
    unfold pyStrip
    rw [List.append_assoc, pyRStrip_append _ (by
      intro hc
      rw [pyRStrip_append ['\n'] hk] at hc
      simp at hc)]
    rw [pyRStrip_append ['\n'] hk]
    rw [← List.append_assoc, List.append_assoc, pyLStrip_append _ h0,
      ← List.append_assoc]
  | cons m ms =>
    have hJ : pyJoin ['\n'] ((m :: ms) ++ [lk]) =
        pyJoin ['\n'] (m :: ms) ++ ['\n'] ++ lk :=
      pyJoin_append_ne (by simp) (by simp)
    have hJ2 : pyJoin ['\n'] ((m :: ms) ++ [pyRStrip lk]) =
        pyJoin ['\n'] (m :: ms) ++ ['\n'] ++ pyRStrip lk :=
      pyJoin_append_ne (by simp) (by simp)
    rw [hJ, hJ2]
    unfold pyStrip
    have hne2 : pyRStrip (pyJoin ['\n'] (m :: ms) ++ ['\n'] ++ lk) =
        pyJoin ['\n'] (m :: ms) ++ ['\n'] ++ pyRStrip lk := by
      rw [List.append_assoc, pyRStrip_append _ (by
        intro hc
        rw [pyRStrip_append ['\n'] hk] at hc
        simp at hc)]
      rw [pyRStrip_append ['\n'] hk]
      simp [List.append_assoc]
    rw [pyRStrip_append _ (by rw [hne2]; simp [hk])]
    rw [hne2]
    rw [List.append_assoc, pyLStrip_append _ h0]
    simp [List.append_assoc]

theorem fallback_true_eq_phase2 : ∀ (lines acc : List Str),
    fallbackLoop lines true acc = phase2 lines acc := by
  intro lines
  induction lines with
  | nil => intro acc; rfl
  | cons line rest ih =>
    intro acc
    simp only [fallbackLoop, phase2, closeLine]
    rw [ite_self, if_pos rfl, ih]

theorem fallback_false_phase1 : ∀ lines : List Str,
    fallbackLoop lines false [] = phase1 lines := by
  intro lines
  induction lines with
  | nil => rfl
  | cons line rest ih =>
    simp only [fallbackLoop, phase1]
    by_cases htr : trigger (pyStrip line) = true
    · have hcond : ("<?xml".toList.isPrefixOf (pyStrip line) ||
          (['<'].isPrefixOf (pyStrip line) &&
            !("<!".toList.isPrefixOf (pyStrip line)) &&
            decide ((pyStrip line).length > 10) && !false)) = true := by
        rw [Bool.not_false, Bool.and_true]
        exact htr
      rw [hcond, if_pos rfl, if_pos rfl, if_pos htr]
      conv_rhs => rw [phase2]
      rw [fallback_true_eq_phase2]
      simp only [closeLine]
    · have hcond : ("<?xml".toList.isPrefixOf (pyStrip line) ||
          (['<'].isPrefixOf (pyStrip line) &&
            !("<!".toList.isPrefixOf (pyStrip line)) &&
            decide ((pyStrip line).length > 10) && !false)) = false := by
        rw [Bool.not_false, Bool.and_true]
        exact Bool.eq_false_iff.mpr htr
      rw [hcond, if_neg Bool.false_ne_true, if_neg Bool.false_ne_true, if_neg htr]
      exact ih

theorem phase2_decomp : ∀ (ls acc : List Str) (t : Str), phase2 ls acc = some t →
    ∃ u lk rest2, ls = (u ++ [lk]) ++ rest2 ∧ closeLine (pyStrip lk) = true ∧
      t = pyStrip (pyJoin ['\n'] (acc ++ (u ++ [lk]))) ∧ 3 < t.count '<' ∧
      ∀ v x w, u = v ++ [x] ++ w → closeLine (pyStrip x) = true →
        ¬ 3 < (pyStrip (pyJoin ['\n'] (acc ++ (v ++ [x])))).count '<' := by
  intro ls
  induction ls with
  | nil => intro acc t h; exact absurd h (by simp [phase2])
  | cons line rest ih =>
    intro acc t h
    rw [phase2] at h
    by_cases hcl : closeLine (pyStrip line) = true
    · rw [if_pos hcl] at h
      by_cases hcnt : (pyStrip (pyJoin ['\n'] (acc ++ [line]))).count '<' > 3
      · rw [if_pos hcnt] at h
        obtain rfl : _ = t := Option.some.inj h
        refine ⟨[], line, rest, by simp, hcl, by simp, hcnt, ?_⟩
        intro v x w hu _
        exact absurd hu (by simp)
      · rw [if_neg hcnt] at h
        obtain ⟨u, lk, rest2, hls, hclk, ht, hc3, hint⟩ := ih (acc ++ [line]) t h
        refine ⟨line :: u, lk, rest2, by simp [hls], hclk, ?_, hc3, ?_⟩
        · rw [ht]
          congr 1
          simp
        · intro v x w hu hx
          cases v with
          | nil =>
            obtain ⟨h1, h2⟩ : line = x ∧ u = w := by
              have h3 := hu
              simp at h3
              exact ⟨h3.1, h3.2⟩
            subst h1
            intro hcc
            apply hcnt
            simpa using hcc
          | cons v0 vs =>
            obtain ⟨h1, h2⟩ : line = v0 ∧ u = (vs ++ [x]) ++ w := by
              have h3 := hu
              simp [List.append_assoc] at h3
              exact ⟨h3.1, by simp [h3.2, List.append_assoc]⟩
            subst h1
            have h4 := hint vs x w (by simpa [List.append_assoc] using h2) hx
            intro hcc
            apply h4
            simpa [List.append_assoc] using hcc
    · rw [if_neg hcl] at h
      obtain ⟨u, lk, rest2, hls, hclk, ht, hc3, hint⟩ := ih (acc ++ [line]) t h
      refine ⟨line :: u, lk, rest2, by simp [hls], hclk, ?_, hc3, ?_⟩
      · rw [ht]
        congr 1
        simp
      · intro v x w hu hx
        cases v with
        | nil =>
          obtain ⟨h1, -⟩ : line = x ∧ u = w := by
            have h3 := hu
            simp at h3
            exact ⟨h3.1, h3.2⟩
          subst h1
          exact absurd hx hcl
        | cons v0 vs =>
          obtain ⟨h1, h2⟩ : line = v0 ∧ u = (vs ++ [x]) ++ w := by
            have h3 := hu
            simp [List.append_assoc] at h3
            exact ⟨h3.1, by simp [h3.2, List.append_assoc]⟩
          subst h1
          have h4 := hint vs x w (by simpa [List.append_assoc] using h2) hx
          intro hcc
          apply h4
          simpa [List.append_assoc] using hcc

theorem phase2_build : ∀ (u : List Str) (lk : Str) (rest2 acc : List Str),
    closeLine (pyStrip lk) = true →
    3 < (pyStrip (pyJoin ['\n'] (acc ++ (u ++ [lk])))).count '<' →
    (∀ v x w, u = v ++ [x] ++ w → closeLine (pyStrip x) = true →
      ¬ 3 < (pyStrip (pyJoin ['\n'] (acc ++ (v ++ [x])))).count '<') →
    phase2 ((u ++ [lk]) ++ rest2) acc =
      some (pyStrip (pyJoin ['\n'] (acc ++ (u ++ [lk])))) := by
  intro u
  induction u with
  | nil =>
    intro lk rest2 acc hcl hcnt _
    show phase2 (lk :: rest2) acc = _
    rw [phase2, if_pos hcl, if_pos (by simpa using hcnt)]
    simp
  | cons l0 us ih =>
    intro lk rest2 acc hcl hcnt hint
    show phase2 (l0 :: ((us ++ [lk]) ++ rest2)) acc = _
    rw [phase2]
    by_cases h0 : closeLine (pyStrip l0) = true
    · rw [if_pos h0, if_neg (by
        have h1 := hint [] l0 us (by simp) h0
        simpa using h1)]
      rw [ih lk rest2 (acc ++ [l0]) hcl (by
          have := hcnt
          simpa [List.append_assoc] using this)
        (fun v x w hu hx => by
          have h2 := hint (l0 :: v) x w (by simp [hu, List.append_assoc]) hx
          intro hcc
          apply h2
          simpa [List.append_assoc] using hcc)]
      congr 2
      simp [List.append_assoc]
    · rw [if_neg h0]
      rw [ih lk rest2 (acc ++ [l0]) hcl (by
          have := hcnt
          simpa [List.append_assoc] using this)
        (fun v x w hu hx => by
          have h2 := hint (l0 :: v) x w (by simp [hu, List.append_assoc]) hx
          intro hcc
          apply h2
          simpa [List.append_assoc] using hcc)]
      congr 2
      simp [List.append_assoc]

theorem phase1_decomp : ∀ {ls : List Str} {t : Str}, phase1 ls = some t →
    ∃ pre ls2, ls = pre ++ ls2 ∧ ls2 ≠ [] ∧ trigger (pyStrip ls2.headI) = true ∧
      phase2 ls2 [] = some t := by
  intro ls
  induction ls with
  | nil => intro t h; exact absurd h (by simp [phase1])
  | cons line rest ih =>
    intro t h
    rw [phase1] at h
    by_cases htr : trigger (pyStrip line) = true
    · rw [if_pos htr] at h
      exact ⟨[], line :: rest, rfl, by simp, htr, h⟩
    · rw [if_neg htr] at h
      obtain ⟨pre, ls2, hls, hne, htrig, hp2⟩ := ih h
      exact ⟨line :: pre, ls2, by simp [hls], hne, htrig, hp2⟩

theorem phase1_build {ls : List Str} {t : Str} (hne : ls ≠ [])
    (htr : trigger (pyStrip ls.headI) = true) (h2 : phase2 ls [] = some t) :
    phase1 ls = some t := by
  cases ls with
  | nil => exact absurd rfl hne
  | cons line rest =>
    rw [phase1, if_pos (show trigger (pyStrip line) = true from htr)]
    exact h2

theorem count_pyLStrip {c : Char} (h : isPySpace c = false) (l : Str) :
    (pyLStrip l).count c = l.count c := count_dropWhile h l

theorem count_pyRStrip {c : Char} (h : isPySpace c = false) (l : Str) :
    (pyRStrip l).count c = l.count c := by
  unfold pyRStrip
  rw [List.count_reverse, count_dropWhile h, List.count_reverse]

theorem trigger_ne_nil {st : Str} (h : trigger st = true) : st ≠ [] := by
  intro he
  subst he
  cases h

theorem closeLine_strip_ne_nil {st : Str} (h : closeLine st = true) : st ≠ [] := by
  intro he
  subst he
  cases h

theorem count_lt_pyLStrip (l : Str) : (pyLStrip l).count '<' = l.count '<' :=
  count_pyLStrip (by decide) l

theorem count_strip_join_eq {L1 L2 : List Str}
    (h : L1.map (fun l => l.count '<') = L2.map (fun l => l.count '<')) :
    (pyStrip (pyJoin ['\n'] L1)).count '<' = (pyStrip (pyJoin ['\n'] L2)).count '<' := by
  rw [count_candidate, count_candidate, h]

theorem extract_idem_fallback {s t : Str} (hsn : searchFrom s = Option.none)
    (hf : fallbackLoop (splitLines s) false [] = some t) :
    extract_form_xml t = some t := by
  rw [fallback_false_phase1] at hf
  obtain ⟨pre, ls2, hsplit, hne2, htrig, hp2⟩ := phase1_decomp hf
  obtain ⟨u, lk, rest2, hls2, hclk, ht, hc3, hint⟩ := phase2_decomp ls2 [] t hp2
  have hmem : ∀ l ∈ u ++ [lk], l ∈ splitLines s := by
    intro l hl
    rw [hsplit, hls2]
    exact List.mem_append.mpr (Or.inr (List.mem_append.mpr (Or.inl hl)))
  have hnl : ∀ l ∈ u ++ [lk], '\n' ∉ l :=
    fun l hl => splitLines_no_newline s l (hmem l hl)
  have hlkmem : lk ∈ u ++ [lk] := List.mem_append.mpr (Or.inr (List.mem_cons_self _ _))
  have htne : t ≠ [] := by
    intro he
    rw [he] at hc3
    simp at hc3
  have htie : t.isEmpty = false := by
    cases hx : t with
    | nil => exact absurd hx htne
    | cons a b => simp
  have hinf : t <:+: s := by
    rw [ht]
    apply (pyStrip_inf _).trans
    have hmid : pyJoin ['\n'] ([] ++ (u ++ [lk])) <:+: pyJoin ['\n'] (splitLines s) := by
      have hshape : splitLines s = (pre ++ ([] ++ (u ++ [lk]))) ++ rest2 := by
        rw [hsplit, hls2]
        simp [List.append_assoc]
      rw [hshape]
      exact infix_pyJoin_of_middle pre rest2 (by simp)
    rwa [pyJoin_splitLines] at hmid
  have hsn_t : searchFrom t = Option.none := searchFrom_none_infix hinf hsn
  have hstriplk_ne : pyStrip lk ≠ [] := closeLine_strip_ne_nil hclk
  have hk : pyRStrip lk ≠ [] := by
    intro hc
    apply hstriplk_ne
    show pyLStrip (pyRStrip lk) = []
    rw [hc]
    rfl
  cases u with
  | nil =>
    have ht1 : t = pyStrip lk := by simpa using ht
    have htrig1 : trigger (pyStrip lk) = true := by
      have : ls2.headI = lk := by rw [hls2]; rfl
      rwa [this] at htrig
    have hnot : '\n' ∉ t := by
      rw [ht1]
      exact fun m => hnl lk hlkmem (pyStrip_subset m)
    have hsplit_t : splitLines t = [t] := splitLines_of_no_newline hnot
    have hstript : pyStrip t = t := by rw [ht1, pyStrip_idem]
    have hp1 : phase1 [t] = some t := by
      apply phase1_build (by simp)
      · show trigger (pyStrip t) = true
        rw [ht1, pyStrip_idem]
        exact htrig1
      · rw [phase2, if_pos (by rw [hstript, ht1]; exact hclk)]
        rw [if_pos (by
          show 3 < (pyStrip (pyJoin ['\n'] ([] ++ [t]))).count '<'
          have he : pyStrip (pyJoin ['\n'] ([] ++ [t])) = t := by
            show pyStrip (pyJoin ['\n'] [t]) = t
            show pyStrip t = t
            exact hstript
          rw [he]
          exact hc3)]
        have he : pyStrip (pyJoin ['\n'] ([] ++ [t])) = t := by
          show pyStrip t = t
          exact hstript
        rw [he]
    unfold extract_form_xml
    simp only [htie, Bool.false_eq_true, if_false, hsn_t]
    rw [hsplit_t, fallback_false_phase1]
    exact hp1
  | cons l0 us =>
    have hhead : ls2.headI = l0 := by rw [hls2]; rfl
    have htrig0 : trigger (pyStrip l0) = true := by rwa [hhead] at htrig
    have hstrip0_ne : pyStrip l0 ≠ [] := trigger_ne_nil htrig0
    have h0L : pyLStrip l0 ≠ [] := by
      intro hc
      apply hstrip0_ne
      have hall : ∀ c ∈ l0, isPySpace c = true := List.dropWhile_eq_nil_iff.mp hc
      show pyLStrip (pyRStrip l0) = []
      apply List.dropWhile_eq_nil_iff.mpr
      intro c hcmem
      exact hall c (pyRStrip_subset hcmem)
    have ht2 : t = pyJoin ['\n'] (pyLStrip l0 :: (us ++ [pyRStrip lk])) := by
      have ht3 : t = pyStrip (pyJoin ['\n'] (l0 :: (us ++ [lk]))) := by
        simpa using ht
      rw [ht3, pyStrip_join_struct us h0L hk]
    have hnlt : ∀ l ∈ pyLStrip l0 :: (us ++ [pyRStrip lk]), '\n' ∉ l := by
      intro l hl
      rcases List.mem_cons.mp hl with rfl | hl2
      · exact fun m => hnl l0 (List.mem_append.mpr (Or.inl (List.mem_cons_self _ _)))
          (pyLStrip_subset m)
      · rcases List.mem_append.mp hl2 with hl3 | hl4
        · exact hnl l (List.mem_append.mpr (Or.inl (List.mem_cons_of_mem _ hl3)))
        · obtain rfl : l = pyRStrip lk := by simpa using hl4
          exact fun m => hnl lk hlkmem (pyRStrip_subset m)
    have hsplit_t : splitLines t = pyLStrip l0 :: (us ++ [pyRStrip lk]) := by
      rw [ht2]
      exact splitLines_pyJoin (by simp) hnlt
    have hstript : pyStrip t = t := by
      have ht3 : t = pyStrip (pyJoin ['\n'] (l0 :: (us ++ [lk]))) := by simpa using ht
      rw [ht3, pyStrip_idem]
    have hjoin_t : pyJoin ['\n'] ([] ++ ((pyLStrip l0 :: us) ++ [pyRStrip lk])) = t := by
      rw [ht2]
      simp [List.append_assoc]
    have hp2' : phase2 ((( pyLStrip l0 :: us) ++ [pyRStrip lk]) ++ []) [] =
        some (pyStrip (pyJoin ['\n'] ([] ++ ((pyLStrip l0 :: us) ++ [pyRStrip lk])))) := by
      apply phase2_build
      · rw [pyStrip_pyRStrip]
        exact hclk
      · rw [hjoin_t, hstript]
        exact hc3
      · intro v x w hu hx
        cases v with
        | nil =>
          obtain ⟨h1, h2⟩ : pyLStrip l0 = x ∧ us = w := by
            have h3 := hu
            simp at h3
            exact ⟨h3.1, h3.2⟩
          subst h1
          have hx0 : closeLine (pyStrip l0) = true := by
            rwa [pyStrip_pyLStrip] at hx
          have h4 := hint [] l0 us (by simp) hx0
          intro hcc
          apply h4
          have hce : (pyStrip (pyJoin ['\n'] ([] ++ ([] ++ [pyLStrip l0])))).count '<' =
              (pyStrip (pyJoin ['\n'] ([] ++ ([] ++ [l0])))).count '<' := by
            apply count_strip_join_eq
            simp [count_lt_pyLStrip]
          rw [hce] at hcc
          exact hcc
        | cons v0 vs =>
          obtain ⟨h1, h2⟩ : pyLStrip l0 = v0 ∧ us = (vs ++ [x]) ++ w := by
            have h3 := hu
            simp [List.append_assoc] at h3
            exact ⟨h3.1, by simp [h3.2, List.append_assoc]⟩
          subst h1
          have h4 := hint (l0 :: vs) x w (by simp [h2, List.append_assoc]) hx
          intro hcc
          apply h4
          have hce : (pyStrip (pyJoin ['\n'] ([] ++ ((pyLStrip l0 :: vs) ++ [x])))).count '<' =
              (pyStrip (pyJoin ['\n'] ([] ++ ((l0 :: vs) ++ [x])))).count '<' := by
            apply count_strip_join_eq
            simp [count_lt_pyLStrip]
          rw [hce] at hcc
          exact hcc
    have hp1 : phase1 (pyLStrip l0 :: (us ++ [pyRStrip lk])) = some t := by
      apply phase1_build (by simp)
      · show trigger (pyStrip (pyLStrip l0)) = true
        rw [pyStrip_pyLStrip]
        exact htrig0
      · have he : ((pyLStrip l0 :: us) ++ [pyRStrip lk]) ++ [] =
            pyLStrip l0 :: (us ++ [pyRStrip lk]) := by simp
        rw [← he, hp2', hjoin_t, hstript]
    unfold extract_form_xml
    simp only [htie, Bool.false_eq_true, if_false, hsn_t]
    rw [hsplit_t, fallback_false_phase1]
    exact hp1

/-- C8: the result extractor is total (it is a function here), returns
`None` on markup-free input, and is idempotent on its own output. -/
theorem C8_extractor_total_idempotent :
    (∀ s : Str, '<' ∉ s → extract_form_xml s = Option.none) ∧
      (∀ s t : Str, extract_form_xml s = some t → extract_form_xml t = some t) := by
  constructor
  · intro s h
    unfold extract_form_xml
    split
    · rfl
    · rw [searchFrom_eq_none h]
      exact fallbackLoop_none (splitLines s)
        (fun l hl m => h (splitLines_subset s l hl m)) []
  · intro s t h
    unfold extract_form_xml at h
    split at h
    · exact absurd h (by simp)
    · split at h
      case h_1 m heq =>
        obtain rfl : pyStrip m = t := Option.some.inj h
        exact extract_idem_search heq
      case h_2 heq =>
        exact extract_idem_fallback heq h

/-- Witness for C8: markup-free input and a concrete extracted
fragment. -/
theorem C8_extractor_witness :
    extract_form_xml "no markup".toList = Option.none ∧
      extract_form_xml "<data x=1>v</data>".toList =
        some "<data x=1>v</data>".toList :=
  ⟨C8_extractor_total_idempotent.1 "no markup".toList (by decide),
   C8_extractor_total_idempotent.2 "a\n<data x=1>v</data>\nb".toList
     "<data x=1>v</data>".toList (by decide)⟩
